import Mathlib

/-!
# Specslides CLI: the Codex prompt-extraction pipeline

A shallow embedding of `cli/pkg/codex/prompt_extract.go` and a verification of
its specification.

* Go strings are byte sequences (`GoString`); `len` is the byte length and
  slicing is by byte offsets.
* A decoded JSON value (`interface{}` as produced by `json.Unmarshal`) is a
  `JValue`; a record `map[string]interface{}` is an association list read with
  `List.lookup`.
* A Go `error` is represented by its message.
* The operating system and the standard library calls whose behaviour is not
  part of this repository (`os.Stat`, `filepath.WalkDir`, `os.Open`,
  `json.Unmarshal`, `json.MarshalIndent`, `sort.Slice`) are fields of an
  environment `Env`.
-/

namespace Specslides

/-! ## Go strings -/

/-- A Go string: an immutable sequence of bytes. -/
abbrev GoString := List UInt8

/-- The bytes (UTF-8) of a string literal of the source. -/
def lit (s : String) : GoString := s.toList.flatMap String.utf8EncodeChar

/-- The constant `utf8.RuneError` (U+FFFD). -/
def RuneError : Nat := 0xFFFD

/-- The table `utf8.first` together with `utf8.acceptRanges`, for the bytes that
start a multi-byte sequence: the sequence length and the accepted range of the second
byte. Every other byte of 0x80 and above is invalid as a first byte. -/
def firstInfo (b : Nat) : Option (Nat × Nat × Nat) :=
  if b < 0xC2 then none
  else if b < 0xE0 then some (2, 0x80, 0xBF)
  else if b = 0xE0 then some (3, 0xA0, 0xBF)
  else if b < 0xED then some (3, 0x80, 0xBF)
  else if b = 0xED then some (3, 0x80, 0x9F)
  else if b < 0xF0 then some (3, 0x80, 0xBF)
  else if b = 0xF0 then some (4, 0x90, 0xBF)
  else if b < 0xF4 then some (4, 0x80, 0xBF)
  else if b = 0xF4 then some (4, 0x80, 0x8F)
  else none

/-- The function `utf8.DecodeRuneInString`: the first rune of `s` and its width in bytes.
An empty string gives `(RuneError, 0)`, an invalid encoding `(RuneError, 1)`. -/
def decodeRune (s : GoString) : Nat × Nat :=
  match s with
  | [] => (RuneError, 0)
  | s0 :: t0 =>
    if s0.toNat < 0x80 then (s0.toNat, 1)
    else
      match firstInfo s0.toNat with
      | none => (RuneError, 1)
      | some (sz, lo, hi) =>
        if s.length < sz then (RuneError, 1)
        else
          match t0 with
          | [] => (RuneError, 1)
          | s1 :: t1 =>
            if s1.toNat < lo ∨ hi < s1.toNat then (RuneError, 1)
            else if sz ≤ 2 then ((s0.toNat % 32) * 64 + s1.toNat % 64, 2)
            else
              match t1 with
              | [] => (RuneError, 1)
              | s2 :: t2 =>
                if s2.toNat < 0x80 ∨ 0xBF < s2.toNat then (RuneError, 1)
                else if sz ≤ 3 then
                  ((s0.toNat % 16) * 4096 + (s1.toNat % 64) * 64 + s2.toNat % 64, 3)
                else
                  match t2 with
                  | [] => (RuneError, 1)
                  | s3 :: _ =>
                    if s3.toNat < 0x80 ∨ 0xBF < s3.toNat then (RuneError, 1)
                    else
                      ((s0.toNat % 8) * 262144 + (s1.toNat % 64) * 4096
                        + (s2.toNat % 64) * 64 + s3.toNat % 64, 4)

/-- The function `utf8.RuneStart`: the byte is not a continuation byte. -/
def RuneStart (b : UInt8) : Bool := decide (b.toNat / 64 ≠ 2)

/-- The backwards scan of `utf8.DecodeLastRuneInString`: starting at `start`, go down while
`start ≥ lim` until a byte that can start a rune is met. At most `UTFMax` positions are
looked at, which is the first argument. -/
def scanStart (s : GoString) (lim : Int) : Nat → Int → Int
  | 0, start => start
  | fuel + 1, start =>
    if start < lim then start
    else if RuneStart (s.getD start.toNat 0) then start
    else scanStart s lim fuel (start - 1)

/-- The function `utf8.DecodeLastRuneInString`: the last rune of `s` and its width. -/
def decodeLastRune (s : GoString) : Nat × Nat :=
  let stop : Nat := s.length
  if stop = 0 then (RuneError, 0)
  else
    let r := (s.getD (stop - 1) 0).toNat
    if r < 0x80 then (r, 1)
    else
      let lim : Int := max ((stop : Int) - 4) 0
      let start := scanStart s lim 4 ((stop : Int) - 2)
      let start : Nat := if start < 0 then 0 else start.toNat
      let (r, size) := decodeRune (s.drop start)
      if start + size ≠ stop then (RuneError, 1) else (r, size)

/-- The function `unicode.IsSpace`: the Unicode White_Space property. -/
def isSpace (r : Nat) : Bool :=
  if r ≤ 0xFF then
    r = 0x09 ∨ r = 0x0A ∨ r = 0x0B ∨ r = 0x0C ∨ r = 0x0D ∨ r = 0x20 ∨ r = 0x85 ∨ r = 0xA0
  else
    r = 0x1680 ∨ (0x2000 ≤ r ∧ r ≤ 0x200A) ∨ r = 0x2028 ∨ r = 0x2029 ∨ r = 0x202F
      ∨ r = 0x205F ∨ r = 0x3000

/-- Leading white space removed, rune by rune (`strings.TrimLeftFunc` with
`unicode.IsSpace`). The first argument bounds the number of runes looked at by the
length of the string. -/
def trimLeftAux : Nat → GoString → GoString
  | 0, s => s
  | fuel + 1, s =>
    match s with
    | [] => []
    | _ :: _ =>
      if isSpace (decodeRune s).1 then trimLeftAux fuel (s.drop (decodeRune s).2) else s

/-- Trailing white space removed, rune by rune from the end (`strings.TrimRightFunc` with
`unicode.IsSpace`): the string is cut after its last rune, decoded backwards, that is not
a space. -/
def trimRightAux : Nat → GoString → GoString
  | 0, s => s
  | fuel + 1, s =>
    match s with
    | [] => []
    | _ :: _ =>
      if isSpace (decodeLastRune s).1 then
        trimRightAux fuel (s.take (s.length - (decodeLastRune s).2))
      else s

/-- The function `strings.TrimSpace`: `s` without its leading and trailing white space, as
defined by Unicode. It is `TrimRightFunc(TrimLeftFunc(s, unicode.IsSpace), unicode.IsSpace)`;
the shortcut the library takes on ASCII bytes gives the same string. Bytes that are not
valid UTF-8 decode to `RuneError`, which is not a space. -/
def TrimSpace (s : GoString) : GoString :=
  let t := trimLeftAux s.length s
  trimRightAux t.length t

/-- The function `strings.TrimSuffix` for the one-byte suffix "\n" used by the source. -/
def TrimSuffixNL (s : GoString) : GoString :=
  if s.getLast? = some 0x0A then s.dropLast else s

/-- The first element of `strings.Split(s, "\n")`: the part of `s` before its first line
feed, or all of `s` when it has none. -/
def firstLineOf (s : GoString) : GoString := s.takeWhile (fun b => b != 0x0A)

/-- The formatting of a non-negative integer by the verb `%d`: its decimal digits, most
significant first, produced from the least significant one by repeated division. -/
def decimalAux : Nat → Nat → GoString → GoString
  | 0, _, acc => acc
  | fuel + 1, n, acc =>
    if n / 10 = 0 then (48 + n % 10).toUInt8 :: acc
    else decimalAux fuel (n / 10) ((48 + n % 10).toUInt8 :: acc)

/-- The decimal form of `n`. -/
def decimal (n : Nat) : GoString := decimalAux (n + 1) n []

/-! ## Decoded JSON values and records -/

/-- A value stored in an `interface{}` by `json.Unmarshal`: nil, bool, float64 (kept as
its 64-bit pattern, never inspected by the extractor), string, slice, or map. -/
inductive JValue where
  | null : JValue
  | bool (b : Bool) : JValue
  | number (bits : Nat) : JValue
  | string (s : GoString) : JValue
  | array (xs : List JValue) : JValue
  | object (m : List (GoString × JValue)) : JValue

/-- A record: `map[string]interface{}`. The first entry with a given key is the value
of that key; an absent key reads as nil. -/
abbrev Record := List (GoString × JValue)

/-- The expression `m[key].(string)` with the failure ignored: the string stored under
`key`, or the empty string when the key is absent or holds another type. -/
def getString (m : Record) (key : GoString) : GoString :=
  match m.lookup key with
  | some (JValue.string s) => s
  | _ => []

/-- The expression `m[key].(map[string]interface{})` with its `ok` flag. -/
def getMap (m : Record) (key : GoString) : Option Record :=
  match m.lookup key with
  | some (JValue.object o) => some o
  | _ => none

/-! ## The data model of the extract -/

structure PromptSession where
  ID : GoString
  CreatedAt : GoString
  WorkspaceRoot : GoString
  SourcePath : GoString
  deriving DecidableEq, Repr

structure PromptMessage where
  ID : GoString
  Timestamp : GoString
  Text : GoString
  deriving DecidableEq, Repr

structure PromptExtract where
  SchemaVersion : GoString
  Source : GoString
  Session : PromptSession
  Prompts : List PromptMessage
  deriving DecidableEq, Repr

structure ExtractResult where
  Extract : PromptExtract
  JSON : GoString
  Markdown : GoString
  deriving DecidableEq, Repr

/-! ## Metadata and prompt extraction -/

/-- The function `extractSessionMeta`: identifier, creation timestamp and workspace root
of the first record of type "session_meta". -/
def extractSessionMeta : List Record → Except String (GoString × GoString × GoString)
  | [] => .error "session_meta record not found"
  | record :: rest =>
    let recordType := getString record (lit "type")
    if recordType ≠ lit "session_meta" then extractSessionMeta rest
    else
      match getMap record (lit "payload") with
      | none => .error "session_meta payload missing"
      | some payload =>
        let sessionID := getString payload (lit "id")
        let createdAt := getString payload (lit "timestamp")
        let workspaceRoot := getString payload (lit "cwd")
        let createdAt := if createdAt = [] then getString record (lit "timestamp") else createdAt
        if sessionID = [] ∨ createdAt = [] ∨ workspaceRoot = [] then
          .error "session_meta missing required fields"
        else .ok (sessionID, createdAt, workspaceRoot)

/-- The loop of `extractUserPrompts`, with its two variables `prompts` and `index`. -/
def extractUserPromptsLoop : List Record → List PromptMessage → Nat → List PromptMessage
  | [], prompts, _ => prompts
  | record :: rest, prompts, index =>
    let recordType := getString record (lit "type")
    if recordType ≠ lit "event_msg" then extractUserPromptsLoop rest prompts index
    else
      match getMap record (lit "payload") with
      | none => extractUserPromptsLoop rest prompts index
      | some payload =>
        let payloadType := getString payload (lit "type")
        if payloadType ≠ lit "user_message" then extractUserPromptsLoop rest prompts index
        else
          let message := TrimSpace (getString payload (lit "message"))
          if message = [] then extractUserPromptsLoop rest prompts index
          else
            let timestamp := getString record (lit "timestamp")
            extractUserPromptsLoop rest
              (prompts ++ [{ ID := lit "p_" ++ decimal index, Timestamp := timestamp,
                             Text := message }])
              (index + 1)

/-- The function `extractUserPrompts`. -/
def extractUserPrompts (records : List Record) : List PromptMessage :=
  extractUserPromptsLoop records [] 1

/-! ## Rendering -/

/-- The function `deriveTitle`. -/
def deriveTitle (prompts : List PromptMessage) : GoString :=
  match prompts with
  | [] => lit "Untitled Specslides"
  | p :: _ =>
    let first := TrimSpace p.Text
    if first = [] then lit "Untitled Specslides"
    else
      let firstLine := TrimSpace (firstLineOf first)
      if firstLine = [] then lit "Untitled Specslides"
      else if firstLine.length > 60 then TrimSpace (firstLine.take 60)
      else firstLine

/-- The loop of `buildMarkdownFromPrompts` over the prompts: `i` is the loop index and
`builder` the text written so far. -/
def writePrompts : List PromptMessage → Nat → GoString → GoString
  | [], _, builder => builder
  | prompt :: rest, i, builder =>
    let builder := if i > 0 then builder ++ lit "---\n\n" else builder
    let builder := builder ++ lit "_**User"
    let builder :=
      if prompt.Timestamp ≠ [] then builder ++ lit " (" ++ prompt.Timestamp ++ lit ")"
      else builder
    let builder := builder ++ lit "**_\n\n"
    let builder := builder ++ prompt.Text
    let builder := builder ++ lit "\n\n"
    writePrompts rest (i + 1) builder

/-- The function `buildMarkdownFromPrompts`. -/
def buildMarkdownFromPrompts (extract : PromptExtract) : GoString :=
  let title := deriveTitle extract.Prompts
  let builder := lit "<!-- Generated by Specslides -->\n\n"
  let builder := builder ++ lit "# "
  let builder := builder ++ title
  let builder := builder ++ lit "\n\n"
  let builder := builder ++ lit "Generated from Codex prompts only.\n\n"
  TrimSpace (writePrompts extract.Prompts 0 builder)

/-! ## The environment: file system and library calls -/

/-- An element of the slice `files` of `findLatestJSONL`. The modification time is an
instant, counted in nanoseconds. -/
structure Candidate where
  path : GoString
  modTime : Int
  deriving DecidableEq, Repr

/-- One call made by `filepath.WalkDir` to its callback: the path, the entry (its name,
whether it is a directory, the result of `Info()` reduced to the modification time) and
the error handed to the callback. -/
structure WalkVisit where
  path : GoString
  name : GoString
  isDir : Bool
  walkErr : Option String
  info : Except String Int

/-- What the program obtains from the operating system and from library calls.
* `stat p`: `os.Stat`, an error or whether `p` is a directory;
* `walkDir root`: the calls `filepath.WalkDir` makes to a callback that keeps returning
  nil, in order;
* `sortSlice less files`: the slice after `sort.Slice(files, less)`;
* `openFile p`: `os.Open`, an error or the bytes that can be read from the file and the
  condition met after them, end of file (`none`) or a read error;
* `unmarshal line`: `json.Unmarshal` into a `map[string]interface{}`, `none` on error;
* `marshalIndent`: `json.MarshalIndent`. -/
structure Env where
  stat : GoString → Except String Bool
  walkDir : GoString → List WalkVisit
  sortSlice : (Candidate → Candidate → Bool) → List Candidate → List Candidate
  openFile : GoString → Except String (GoString × Option String)
  unmarshal : GoString → Option Record
  marshalIndent : PromptExtract → Except String GoString

/-! ## Input resolution -/

/-- The scan of `filepath.Ext` from the end of the path: the first argument is the part
of the path not yet looked at, reversed, the second the bytes already passed. -/
def extAux : List UInt8 → GoString → GoString
  | [], _ => []
  | c :: before, suffix =>
    if c = 0x2F then []
    else if c = 0x2E then c :: suffix
    else extAux before (c :: suffix)

/-- The function `filepath.Ext` (with the path separator "/"): the suffix starting at the
last dot of the last element of the path, empty when there is no dot. -/
def Ext (path : GoString) : GoString := extAux path.reverse []

/-- The callback given to `filepath.WalkDir` by `findLatestJSONL`, as a function of the
slice `files` collected so far. An error returned by the callback ends the walk (the
errors it can return come from the walk itself, never `filepath.SkipDir`). -/
def walkFn (files : List Candidate) (v : WalkVisit) : Except String (List Candidate) :=
  match v.walkErr with
  | some walkErr => .error walkErr
  | none =>
    if v.isDir then .ok files
    else if Ext v.name ≠ lit ".jsonl" then .ok files
    else
      match v.info with
      | .error err => .error err
      | .ok modTime => .ok (files ++ [{ path := v.path, modTime := modTime }])

/-- The walk: the callback applied to each visit in turn, until it returns an error. -/
def walkAll : List WalkVisit → List Candidate → Except String (List Candidate)
  | [], files => .ok files
  | v :: rest, files =>
    match walkFn files v with
    | .error err => .error err
    | .ok files => walkAll rest files

/-- The comparison given to `sort.Slice`: the modification time of `a` is after the one
of `b`. -/
def modTimeAfter (a b : Candidate) : Bool := decide (b.modTime < a.modTime)

/-- The function `findLatestJSONL`. `sort.Slice` sorts in place and keeps the length of
the slice, which is not zero when `files[0]` is read; an empty sorted slice, which only a
`sortSlice` that does not permute can give, is the index-out-of-range panic. -/
def findLatestJSONL (env : Env) (root : GoString) : Except String GoString :=
  match walkAll (env.walkDir root) [] with
  | .error err => .error ("scan input directory: " ++ err)
  | .ok files =>
    if files.length = 0 then .error "no .jsonl session files found in input directory"
    else
      match env.sortSlice modTimeAfter files with
      | [] => .error "panic: index out of range"
      | first :: _ => .ok first.path

/-- The function `resolveInput`. -/
def resolveInput (env : Env) (inputPath : GoString) : Except String GoString :=
  match env.stat inputPath with
  | .error err => .error ("input not found: " ++ err)
  | .ok isDir =>
    if isDir then
      match findLatestJSONL env inputPath with
      | .error err => .error err
      | .ok latest => .ok latest
    else if Ext inputPath ≠ lit ".jsonl" then .error "expected a Codex session .jsonl file"
    else .ok inputPath

/-! ## Reading the records -/

/-- The call `reader.ReadString(0x0A)` on the unread bytes: the bytes up to and including
the first line feed, the bytes left unread, and whether the end of the input was reached
before a line feed (then the call returns its bytes with an error, `io.EOF` at the end of
the file). -/
def readStringNL : GoString → GoString × GoString × Bool
  | [] => ([], [], true)
  | b :: rest =>
    if b = 0x0A then ([b], rest, false)
    else
      let (line, unread, atEnd) := readStringNL rest
      (b :: line, unread, atEnd)

/-- The loop of `readJSONLRecords`. `final` is the condition met at the end of the
readable bytes, `none` for the end of the file. The first argument bounds the number of
iterations; `none` is returned when it does not suffice. -/
def readLoop (env : Env) (final : Option String) :
    Nat → GoString → List Record → Option (Except String (List Record))
  | 0, _, _ => none
  | fuel + 1, unread, records =>
    match readStringNL unread with
    | (line, unread, atEnd) =>
      let line := TrimSpace (TrimSuffixNL line)
      match atEnd, final with
      | true, some err => some (.error ("read session file: " ++ err))
      | _, _ =>
        let records :=
          if line ≠ [] then
            match env.unmarshal line with
            | some record => records ++ [record]
            | none => records
          else records
        if atEnd then
          if records.length = 0 then some (.error "session file is empty or unreadable")
          else some (.ok records)
        else readLoop env final fuel unread records

/-- The function `readJSONLRecords`. Every iteration but the last consumes a line feed, so
one more iteration than there are bytes always suffices; `none` stands for a loop that
has not ended within that bound. -/
def readJSONLRecords (env : Env) (path : GoString) : Option (Except String (List Record)) :=
  match env.openFile path with
  | .error err => some (.error ("open session file: " ++ err))
  | .ok (content, final) => readLoop env final (content.length + 1) content []

/-! ## The pipeline -/

structure GenerateOptions where
  InputPath : GoString
  ServerURL : GoString
  DryRun : Bool

/-- The part of `BuildPromptExtract` that follows the reading of the records: metadata
extraction, prompt extraction, construction of the extract and of its two renderings. -/
def buildFromRecords (env : Env) (resolvedInput : GoString) (records : List Record) :
    Except String ExtractResult :=
  match extractSessionMeta records with
  | .error err => .error err
  | .ok (sessionID, createdAt, workspaceRoot) =>
    let prompts := extractUserPrompts records
    if prompts.length = 0 then .error "no user prompts found in session"
    else
      let extract : PromptExtract :=
        { SchemaVersion := lit "1.0"
          Source := lit "codex"
          Session :=
            { ID := sessionID
              CreatedAt := createdAt
              WorkspaceRoot := workspaceRoot
              SourcePath := resolvedInput }
          Prompts := prompts }
      match env.marshalIndent extract with
      | .error err => .error ("marshal prompt extract: " ++ err)
      | .ok payload =>
        .ok { Extract := extract, JSON := payload, Markdown := buildMarkdownFromPrompts extract }

/-- The function `BuildPromptExtract`. The result is `none` only if the reading loop does
not end within its bound. -/
def BuildPromptExtract (env : Env) (opts : GenerateOptions) :
    Option (Except String ExtractResult) :=
  match resolveInput env opts.InputPath with
  | .error err => some (.error err)
  | .ok resolvedInput =>
    match readJSONLRecords env resolvedInput with
    | none => none
    | some (.error err) => some (.error err)
    | some (.ok records) => some (buildFromRecords env resolvedInput records)

/-! ## Notions of the specification

The definitions below are not translations of the source: they state, in the words of
the specification, what the extraction functions are compared with. -/

/-- The string has no leading white space: it is empty or its first rune is not a space. -/
def NoLeadingSpace (s : GoString) : Prop := s = [] ∨ isSpace (decodeRune s).1 = false

/-- The string has no trailing white space: it is empty or its last rune is not a space. -/
def NoTrailingSpace (s : GoString) : Prop := s = [] ∨ isSpace (decodeLastRune s).1 = false

/-- The number written by a string of decimal digits. -/
def decimalValue (s : GoString) : Nat := s.foldl (fun a d => a * 10 + (d.toNat - 48)) 0

/-- A qualifying record: its type is "event_msg" and its payload is a map whose type is
"user_message". -/
def isUserMessage (r : Record) : Bool :=
  decide (getString r (lit "type") = lit "event_msg") &&
    match getMap r (lit "payload") with
    | some payload => decide (getString payload (lit "type") = lit "user_message")
    | none => false

/-- The message of a record: the string under "message" in its payload, empty when the
payload is not a map or the message is missing or not a string. -/
def messageOf (r : Record) : GoString :=
  match getMap r (lit "payload") with
  | some payload => getString payload (lit "message")
  | none => []

/-- The message of the record is empty after trimming surrounding white space. -/
def isBlank (r : Record) : Bool := decide (TrimSpace (messageOf r) = [])

/-- The qualifying records whose trimmed message is not empty, in stream order. -/
def survivors (records : List Record) : List Record :=
  records.filter (fun r => isUserMessage r && !isBlank r)

/-- The prompt made from a surviving record when it is given the number `i`. -/
def promptOf (i : Nat) (r : Record) : PromptMessage :=
  { ID := lit "p_" ++ decimal i
    Timestamp := getString r (lit "timestamp")
    Text := TrimSpace (messageOf r) }

/-- The prompts of a list of surviving records, numbered consecutively from `i`. -/
def numberFrom : Nat → List Record → List PromptMessage
  | _, [] => []
  | i, r :: rest => promptOf i r :: numberFrom (i + 1) rest

/-- A metadata record: its type is "session_meta". -/
def isSessionMeta (r : Record) : Bool := decide (getString r (lit "type") = lit "session_meta")

/-- The first metadata record of the stream, if any. -/
def firstSessionMeta (records : List Record) : Option Record := records.find? isSessionMeta

/-- The creation timestamp of a metadata record `m` with payload `payload`: the payload
timestamp, or the top-level timestamp of the record when the payload has none. -/
def metaTimestamp (m payload : Record) : GoString :=
  if getString payload (lit "timestamp") = [] then getString m (lit "timestamp")
  else getString payload (lit "timestamp")

/-- The lines of a file content: the pieces between line feeds, the piece after the last
line feed included. -/
def linesOf (content : GoString) : List GoString := content.splitOnP (fun b => b == 0x0A)

/-- The record of a line, if it has one: the line is trimmed, a blank line has no record,
any other line has the record it parses as, if it parses. -/
def recordOfLine (env : Env) (line : GoString) : Option Record :=
  if TrimSpace line = [] then none else env.unmarshal (TrimSpace line)

/-- The records of a file content: those of its lines, in order. -/
def recordsOf (env : Env) (content : GoString) : List Record :=
  (linesOf content).filterMap (recordOfLine env)

/-- The contract of `sort.Slice` used by `findLatestJSONL`: the slice is permuted. -/
def SortPermutes (env : Env) : Prop :=
  ∀ (less : Candidate → Candidate → Bool) (files : List Candidate),
    (env.sortSlice less files).Perm files

/-- A property of `filepath.WalkDir`: the path handed to the callback is never empty. -/
def WalkPathsNonEmpty (env : Env) : Prop :=
  ∀ (root : GoString) (v : WalkVisit), v ∈ env.walkDir root → v.path ≠ []

deriving instance DecidableEq for Except

/-! ## Notions of the specification: titles and rendering -/

/-- The fixed fallback title. -/
def fallbackTitle : GoString := lit "Untitled Specslides"

/-- The trimmed first line of a text: the part of the trimmed text before its first line
feed, trimmed in turn. -/
def trimmedFirstLine (text : GoString) : GoString := TrimSpace (firstLineOf (TrimSpace text))

/-- The return statement by which `deriveTitle` ends, counted from 1 in the order of the
source: 1, 2 and 3 are the three returns of the fallback, 4 is the truncated title and 5
the whole first line. -/
def deriveTitleReturn (prompts : List PromptMessage) : Nat :=
  match prompts with
  | [] => 1
  | p :: _ =>
    let first := TrimSpace p.Text
    if first = [] then 2
    else
      let firstLine := TrimSpace (firstLineOf first)
      if firstLine = [] then 3
      else if firstLine.length > 60 then 4
      else 5

/-- The number of characters (runes) of a string, as `utf8.RuneCountInString` counts
them. The first argument bounds the number of runes by the number of bytes. -/
def runeCountAux : Nat → GoString → Nat
  | 0, _ => 0
  | fuel + 1, s =>
    match s with
    | [] => 0
    | _ :: _ => 1 + runeCountAux fuel (s.drop (decodeRune s).2)

/-- The number of characters (runes) of a string. -/
def runeCount (s : GoString) : Nat := runeCountAux s.length s

/-- The number of positions of `s` at which `pat` occurs. -/
def occurrences (pat : GoString) : GoString → Nat
  | [] => 0
  | b :: t => (if pat.isPrefixOf (b :: t) then 1 else 0) + occurrences pat t

/-- The provenance comment that opens every document. -/
def provenanceComment : GoString := lit "<!-- Generated by Specslides -->"

/-- The separator line, with the blank line after it. -/
def separator : GoString := lit "---\n\n"

/-- The head of the document: the provenance comment and a blank line, the heading with
the title and a blank line, the descriptive line and a blank line. -/
def headerOf (prompts : List PromptMessage) : GoString :=
  provenanceComment ++ lit "\n\n" ++ (lit "# " ++ deriveTitle prompts ++ lit "\n\n")
    ++ lit "Generated from Codex prompts only.\n\n"

/-- The label of a prompt, with the timestamp in parentheses exactly when the timestamp is
not empty. -/
def labelOf (timestamp : GoString) : GoString :=
  if timestamp = [] then lit "_**User**_"
  else lit "_**User (" ++ timestamp ++ lit ")**_"

/-- The block of a prompt in the words of the claim: the label, a blank line and the text
unchanged. -/
def blockClaimed (p : PromptMessage) : GoString := labelOf p.Timestamp ++ lit "\n\n" ++ p.Text

/-- The document in the words of the claim: the trimmed concatenation of the head and of
the blocks, every block after the first preceded by the separator. -/
def renderClaimed (prompts : List PromptMessage) : GoString :=
  TrimSpace (headerOf prompts ++ (List.intersperse separator (prompts.map blockClaimed)).flatten)

/-- The block of a prompt as written: the label, a blank line, the text unchanged and a
blank line. -/
def blockOf (p : PromptMessage) : GoString :=
  labelOf p.Timestamp ++ lit "\n\n" ++ p.Text ++ lit "\n\n"

/-- The strings written for the prompts, in order: the blocks, with the separator between
two consecutive blocks. -/
def writtenPieces (prompts : List PromptMessage) : List GoString :=
  List.intersperse separator (prompts.map blockOf)

/-- The prompts `ps` with their identifiers replaced by "p_" and the consecutive numbers
from `i` on; text and timestamp are kept. -/
def renumberFrom : Nat → List PromptMessage → List PromptMessage
  | _, [] => []
  | i, p :: rest => { p with ID := lit "p_" ++ decimal i } :: renumberFrom (i + 1) rest

/-- The contract of `sort.Slice` for the comparison of `findLatestJSONL`: the slice is
permuted, and afterwards no element is less than an element before it. -/
def SortContract (env : Env) : Prop :=
  ∀ files : List Candidate,
    (env.sortSlice modTimeAfter files).Perm files
      ∧ (env.sortSlice modTimeAfter files).Pairwise (fun a b => modTimeAfter b a = false)

/-! ## Example inputs -/

/-- A record of type "event_msg" carrying the user message "Hello". -/
def exEvent : Record :=
  [(lit "type", JValue.string (lit "event_msg")),
   (lit "payload", JValue.object
      [(lit "type", JValue.string (lit "user_message")),
       (lit "message", JValue.string (lit "Hello"))])]

/-- A metadata record whose payload is not a map. -/
def exMetaBad : Record :=
  [(lit "type", JValue.string (lit "session_meta")),
   (lit "payload", JValue.string (lit "s1"))]

/-- A well-formed metadata record, with a payload timestamp and a top-level one. -/
def exMetaGood : Record :=
  [(lit "type", JValue.string (lit "session_meta")),
   (lit "timestamp", JValue.string (lit "2024-01-02T00:00:00Z")),
   (lit "payload", JValue.object
      [(lit "id", JValue.string (lit "s1")),
       (lit "timestamp", JValue.string (lit "2024-01-01T00:00:00Z")),
       (lit "cwd", JValue.string (lit "/work"))])]

/-- A payload with an id and a cwd and without timestamp. -/
def exPayloadNoTs : Record :=
  [(lit "id", JValue.string (lit "s1")), (lit "cwd", JValue.string (lit "/work"))]

/-- A metadata record with the payload `exPayloadNoTs` whose top-level timestamp is the
empty string. -/
def exMetaEmptyTop : Record :=
  [(lit "type", JValue.string (lit "session_meta")),
   (lit "timestamp", JValue.string (lit "")),
   (lit "payload", JValue.object exPayloadNoTs)]

/-- A metadata record with the payload `exPayloadNoTs` and a top-level timestamp. -/
def exMetaTop : Record :=
  [(lit "type", JValue.string (lit "session_meta")),
   (lit "timestamp", JValue.string (lit "2024-01-02T00:00:00Z")),
   (lit "payload", JValue.object exPayloadNoTs)]

/-- The line of a session file that holds `exMetaGood`. -/
def exLineMeta : GoString :=
  lit ("\x7b\x22type\x22:\x22session_meta\x22,\x22timestamp\x22:\x222024-01-02T00:00:00Z\x22,"
    ++ "\x22payload\x22:\x7b\x22id\x22:\x22s1\x22,\x22timestamp\x22:\x222024-01-01T00:00:00Z\x22,"
    ++ "\x22cwd\x22:\x22/work\x22\x7d\x7d")

/-- The line of a session file that holds `exEvent`. -/
def exLineEvent : GoString :=
  lit ("\x7b\x22type\x22:\x22event_msg\x22,\x22payload\x22:\x7b\x22type\x22:\x22user_message\x22,"
    ++ "\x22message\x22:\x22Hello\x22\x7d\x7d")

/-- A session file: the metadata line, a line that is not JSON, a blank line and a user
message, the last line without line feed. -/
def exContent : GoString :=
  exLineMeta ++ lit "\n" ++ lit "not json\r\n" ++ lit "  \n" ++ lit "\t" ++ exLineEvent

/-- The decoding of the two lines of the example; every other line is rejected. -/
def exUnmarshal (line : GoString) : Option Record :=
  if line = exLineMeta then some exMetaGood
  else if line = exLineEvent then some exEvent
  else none

/-- An environment: a directory "/s" with two session files, "a.jsonl" the newer one, and
a text file. Sorting is by insertion; the JSON text of the extract is left empty. -/
def exEnv : Env where
  stat := fun p =>
    if p = lit "/s" then .ok true
    else if p = lit "/s/a.jsonl" then .ok false
    else .error "stat: no such file or directory"
  walkDir := fun root =>
    if root = lit "/s" then
      [{ path := lit "/s", name := lit "s", isDir := true, walkErr := none, info := .ok 9 },
       { path := lit "/s/a.jsonl", name := lit "a.jsonl", isDir := false, walkErr := none,
         info := .ok 5 },
       { path := lit "/s/b.jsonl", name := lit "b.jsonl", isDir := false, walkErr := none,
         info := .ok 3 },
       { path := lit "/s/notes.txt", name := lit "notes.txt", isDir := false, walkErr := none,
         info := .ok 7 }]
    else []
  sortSlice := fun less files => files.insertionSort (fun a b => less b a = false)
  openFile := fun p =>
    if p = lit "/s/a.jsonl" then .ok (exContent, none)
    else .error "open: no such file or directory"
  unmarshal := exUnmarshal
  marshalIndent := fun _ => .ok []

/-- The options of a run on the directory "/s". -/
def exOpts : GenerateOptions :=
  { InputPath := lit "/s", ServerURL := lit "http://localhost:3000", DryRun := false }

/-- The extract of the example session. -/
def exExtract : PromptExtract :=
  { SchemaVersion := lit "1.0"
    Source := lit "codex"
    Session :=
      { ID := lit "s1"
        CreatedAt := lit "2024-01-01T00:00:00Z"
        WorkspaceRoot := lit "/work"
        SourcePath := lit "/s/a.jsonl" }
    Prompts := [{ ID := lit "p_1", Timestamp := [], Text := lit "Hello" }] }

/-- The result of the example run. -/
def exResult : ExtractResult :=
  { Extract := exExtract, JSON := [], Markdown := buildMarkdownFromPrompts exExtract }

/-- The metadata record of the end-to-end scenario. -/
def exScenarioMeta : Record :=
  [(lit "type", JValue.string (lit "session_meta")),
   (lit "payload", JValue.object
      [(lit "id", JValue.string (lit "s1")),
       (lit "timestamp", JValue.string (lit "2024-01-01T00:00:00Z")),
       (lit "cwd", JValue.string (lit "/work"))])]

/-- A qualifying user-message record with the given message. -/
def exUserMessage (message : GoString) : Record :=
  [(lit "type", JValue.string (lit "event_msg")),
   (lit "payload", JValue.object
      [(lit "type", JValue.string (lit "user_message")),
       (lit "message", JValue.string message)])]

/-- The records of the end-to-end scenario: the metadata record and two user messages,
"Hello" and a blank one. -/
def exScenario : List Record :=
  [exScenarioMeta, exUserMessage (lit "Hello"), exUserMessage (lit "  ")]

/-- A prompt with the given text, without timestamp. -/
def exPrompt (text : GoString) : PromptMessage :=
  { ID := lit "p_1", Timestamp := [], Text := text }

/-- A text whose first line is "a" followed by 70 spaces: 71 characters. -/
def exTextSpaces : GoString := lit "a" ++ List.replicate 70 0x20 ++ lit "\nb"

/-- A text of one line made of 61 letters "é", of two bytes each. -/
def exTextAccents : GoString := (List.replicate 61 [0xC3, 0xA9]).flatten

/-- A text of one line of 70 bytes: 59 letters "x", a space and 10 letters "y". -/
def exTextLong : GoString := List.replicate 59 0x78 ++ [0x20] ++ List.replicate 10 0x79

/-- An extract with two prompts, the second one with a timestamp. -/
def exExtractTwo : PromptExtract :=
  { SchemaVersion := lit "1.0"
    Source := lit "codex"
    Session :=
      { ID := lit "s1"
        CreatedAt := lit "2024-01-01T00:00:00Z"
        WorkspaceRoot := lit "/work"
        SourcePath := lit "/s/a.jsonl" }
    Prompts :=
      [{ ID := lit "p_1", Timestamp := [], Text := lit "Hello" },
       { ID := lit "p_2", Timestamp := lit "2024-01-01T00:00:05Z", Text := lit "Bye" }] }

/-- An extract with the texts and timestamps of `exExtractTwo` and other identifiers,
session, source and schema version. -/
def exExtractTwoOther : PromptExtract :=
  { SchemaVersion := lit "2.0"
    Source := lit "other"
    Session :=
      { ID := lit "s2"
        CreatedAt := lit "2025-01-01T00:00:00Z"
        WorkspaceRoot := lit "/elsewhere"
        SourcePath := lit "/t/b.jsonl" }
    Prompts :=
      [{ ID := lit "x", Timestamp := [], Text := lit "Hello" },
       { ID := lit "y", Timestamp := lit "2024-01-01T00:00:05Z", Text := lit "Bye" }] }

/-- The environment `exEnv` with the directory "/s" enumerated in the opposite order. -/
def exEnvReversed : Env :=
  { exEnv with walkDir := fun root => (exEnv.walkDir root).reverse }

/-! # Verification -/

set_option maxRecDepth 100000

/-! ## UTF-8 decoding and trimming -/

theorem scanStart_le (s : GoString) (lim : Int) :
    ∀ (fuel : Nat) (start : Int), scanStart s lim fuel start ≤ start := by
  intro fuel
  induction fuel with
  | zero => intro start; simp [scanStart]
  | succ n ih =>
    intro start
    unfold scanStart
    split_ifs
    · exact le_refl _
    · exact le_refl _
    · have := ih (start - 1); omega

theorem decodeRune_size_pos (b : UInt8) (t : GoString) : 1 ≤ (decodeRune (b :: t)).2 := by
  unfold decodeRune
  simp only []
  repeat (first | split | omega | simp)

theorem decodeRune_nil : decodeRune [] = (RuneError, 0) := rfl

theorem decodeLastRune_size_pos (s : GoString) (hs : s ≠ []) : 1 ≤ (decodeLastRune s).2 := by
  have hlen : 0 < s.length := List.length_pos.mpr hs
  have hscan := scanStart_le s (max ((s.length : Int) - 4) 0) 4 ((s.length : Int) - 2)
  unfold decodeLastRune
  simp only []
  split_ifs with h1 h2 h3 h4 h5
  all_goals simp only [ne_eq, not_not] at *
  all_goals omega

theorem isSpace_RuneError : isSpace RuneError = false := by decide

theorem firstInfo_size (b sz lo hi : Nat) (h : firstInfo b = some (sz, lo, hi)) :
    2 ≤ sz ∧ sz ≤ 4 := by
  unfold firstInfo at h
  split_ifs at h <;> simp at h <;> omega

/-- A restatement of `decodeRune` on a non-empty string with the table lookup exposed. -/
theorem decodeRune_cons (s0 : UInt8) (t0 : GoString) :
    decodeRune (s0 :: t0) =
      if s0.toNat < 0x80 then (s0.toNat, 1)
      else
        match firstInfo s0.toNat with
        | none => (RuneError, 1)
        | some (sz, lo, hi) =>
          if (s0 :: t0).length < sz then (RuneError, 1)
          else
            match t0 with
            | [] => (RuneError, 1)
            | s1 :: t1 =>
              if s1.toNat < lo ∨ hi < s1.toNat then (RuneError, 1)
              else if sz ≤ 2 then ((s0.toNat % 32) * 64 + s1.toNat % 64, 2)
              else
                match t1 with
                | [] => (RuneError, 1)
                | s2 :: t2 =>
                  if s2.toNat < 0x80 ∨ 0xBF < s2.toNat then (RuneError, 1)
                  else if sz ≤ 3 then
                    ((s0.toNat % 16) * 4096 + (s1.toNat % 64) * 64 + s2.toNat % 64, 3)
                  else
                    match t2 with
                    | [] => (RuneError, 1)
                    | s3 :: _ =>
                      if s3.toNat < 0x80 ∨ 0xBF < s3.toNat then (RuneError, 1)
                      else
                        ((s0.toNat % 8) * 262144 + (s1.toNat % 64) * 4096
                          + (s2.toNat % 64) * 64 + s3.toNat % 64, 4) := by
  rfl

theorem decodeRune_take (s : GoString) (k : Nat) (hk : 1 ≤ k) :
    decodeRune (s.take k) = decodeRune s ∨ decodeRune (s.take k) = (RuneError, 1) := by
  match s with
  | [] => simp
  | s0 :: t0 =>
    match k, hk with
    | k + 1, _ =>
      rw [List.take_succ_cons, decodeRune_cons, decodeRune_cons]
      by_cases h0 : s0.toNat < 0x80
      · simp [h0]
      · simp only [h0, if_false]
        cases hf : firstInfo s0.toNat with
        | none => simp
        | some info =>
          obtain ⟨sz, lo, hi⟩ := info
          have hsz := firstInfo_size _ _ _ _ hf
          simp only
          rcases t0 with _ | ⟨s1, t1⟩
          · simp
          · rcases k with _ | k
            · simp
            · rcases t1 with _ | ⟨s2, t2⟩
              · simp
              · rcases k with _ | k
                · simp
                  split_ifs <;> simp_all
                  omega
                · rcases t2 with _ | ⟨s3, t3⟩
                  · simp
                  · rcases k with _ | k
                    · simp
                      split_ifs <;> simp_all <;> omega
                    · left
                      have h1 : ¬ (k ⊓ t3.length + 1 + 1 + 1 + 1 < sz) := by omega
                      have h2 : ¬ (t3.length + 1 + 1 + 1 + 1 < sz) := by omega
                      simp [h1, h2]

theorem trimLeftAux_noLeading :
    ∀ (fuel : Nat) (s : GoString), s.length ≤ fuel → NoLeadingSpace (trimLeftAux fuel s) := by
  intro fuel
  induction fuel with
  | zero =>
    intro s h
    left
    have : s = [] := List.length_eq_zero.mp (by omega)
    simp [trimLeftAux, this]
  | succ n ih =>
    intro s h
    cases s with
    | nil => left; rfl
    | cons b t =>
      simp only [trimLeftAux]
      split_ifs with hsp
      · apply ih
        have := decodeRune_size_pos b t
        simp only [List.length_drop, List.length_cons] at h ⊢
        omega
      · right
        simpa using hsp

theorem trimRightAux_noTrailing :
    ∀ (fuel : Nat) (s : GoString), s.length ≤ fuel → NoTrailingSpace (trimRightAux fuel s) := by
  intro fuel
  induction fuel with
  | zero =>
    intro s h
    left
    have : s = [] := List.length_eq_zero.mp (by omega)
    simp [trimRightAux, this]
  | succ n ih =>
    intro s h
    cases s with
    | nil => left; rfl
    | cons b t =>
      simp only [trimRightAux]
      split_ifs with hsp
      · apply ih
        have := decodeLastRune_size_pos (b :: t) (by simp)
        simp only [List.length_take, List.length_cons] at h ⊢
        omega
      · right
        simpa using hsp

theorem trimLeftAux_drop : ∀ (fuel : Nat) (s : GoString), ∃ k, trimLeftAux fuel s = s.drop k := by
  intro fuel
  induction fuel with
  | zero => intro s; exact ⟨0, rfl⟩
  | succ n ih =>
    intro s
    cases s with
    | nil => exact ⟨0, rfl⟩
    | cons b t =>
      simp only [trimLeftAux]
      split_ifs with hsp
      · obtain ⟨k, hk⟩ := ih (List.drop (decodeRune (b :: t)).2 (b :: t))
        exact ⟨(decodeRune (b :: t)).2 + k, by rw [hk, List.drop_drop]⟩
      · exact ⟨0, rfl⟩

theorem trimRightAux_take : ∀ (fuel : Nat) (s : GoString), ∃ k, trimRightAux fuel s = s.take k := by
  intro fuel
  induction fuel with
  | zero => intro s; exact ⟨s.length, by simp [trimRightAux]⟩
  | succ n ih =>
    intro s
    cases s with
    | nil => exact ⟨0, rfl⟩
    | cons b t =>
      simp only [trimRightAux]
      split_ifs with hsp
      · obtain ⟨k, hk⟩ := ih (List.take ((b :: t).length - (decodeLastRune (b :: t)).2) (b :: t))
        exact ⟨min k ((b :: t).length - (decodeLastRune (b :: t)).2), by rw [hk, List.take_take]⟩
      · exact ⟨(b :: t).length, by simp⟩

theorem trimRightAux_keeps_noLeading (fuel : Nat) (s : GoString) (h : NoLeadingSpace s) :
    NoLeadingSpace (trimRightAux fuel s) := by
  obtain ⟨k, hk⟩ := trimRightAux_take fuel s
  rw [hk]
  rcases h with h | h
  · left; simp [h]
  · rcases k with _ | k
    · left; simp
    · right
      rcases decodeRune_take s (k + 1) (by omega) with h1 | h1
      · rw [h1]; exact h
      · rw [h1]; exact isSpace_RuneError

theorem trimLeftAux_fix (fuel : Nat) (s : GoString) (h : NoLeadingSpace s) :
    trimLeftAux fuel s = s := by
  cases fuel with
  | zero => rfl
  | succ n =>
    cases s with
    | nil => rfl
    | cons b t =>
      rcases h with h | h
      · simp at h
      · simp [trimLeftAux, h]

theorem trimRightAux_fix (fuel : Nat) (s : GoString) (h : NoTrailingSpace s) :
    trimRightAux fuel s = s := by
  cases fuel with
  | zero => rfl
  | succ n =>
    cases s with
    | nil => rfl
    | cons b t =>
      rcases h with h | h
      · simp at h
      · simp [trimRightAux, h]

theorem TrimSpace_noLeading (s : GoString) : NoLeadingSpace (TrimSpace s) :=
  trimRightAux_keeps_noLeading _ _ (trimLeftAux_noLeading _ _ (le_refl _))

theorem TrimSpace_noTrailing (s : GoString) : NoTrailingSpace (TrimSpace s) :=
  trimRightAux_noTrailing _ _ (le_refl _)

theorem TrimSpace_idem (s : GoString) : TrimSpace (TrimSpace s) = TrimSpace s := by
  have h1 := TrimSpace_noLeading s
  have h2 := TrimSpace_noTrailing s
  generalize TrimSpace s = t at h1 h2
  unfold TrimSpace
  simp only [trimLeftAux_fix _ t h1, trimRightAux_fix _ t h2]

/-! ## Decimal formatting -/

theorem foldl_decimal (l : GoString) (a : Nat) :
    l.foldl (fun a d => a * 10 + (d.toNat - 48)) a
      = a * 10 ^ l.length + l.foldl (fun a d => a * 10 + (d.toNat - 48)) 0 := by
  induction l generalizing a with
  | nil => simp
  | cons d t ih =>
    simp only [List.foldl_cons, List.length_cons]
    rw [ih (a * 10 + (d.toNat - 48)), ih (0 * 10 + (d.toNat - 48))]
    ring

theorem decimalValue_cons (d : UInt8) (t : GoString) :
    decimalValue (d :: t) = (d.toNat - 48) * 10 ^ t.length + decimalValue t := by
  unfold decimalValue
  rw [List.foldl_cons, foldl_decimal]
  simp

theorem digit_toNat (n : Nat) : ((48 + n % 10).toUInt8).toNat - 48 = n % 10 := by
  have h : n % 10 < 10 := Nat.mod_lt _ (by decide)
  have : (48 + n % 10).toUInt8.toNat = 48 + n % 10 := by
    simp [Nat.toUInt8, UInt8.toNat, UInt8.ofNat, Fin.ofNat]
    omega
  omega

theorem decimalAux_value :
    ∀ (fuel n : Nat) (acc : GoString), n < fuel →
      decimalValue (decimalAux fuel n acc) = n * 10 ^ acc.length + decimalValue acc := by
  intro fuel
  induction fuel with
  | zero => intro n acc h; omega
  | succ f ih =>
    intro n acc h
    unfold decimalAux
    split_ifs with h0
    · rw [decimalValue_cons, digit_toNat]
      have : n % 10 = n := by omega
      rw [this]
    · have hlt : n / 10 < f := by omega
      rw [ih (n / 10) _ hlt, decimalValue_cons, digit_toNat, List.length_cons]
      have := Nat.div_add_mod n 10
      calc n / 10 * 10 ^ (acc.length + 1) + (n % 10 * 10 ^ acc.length + decimalValue acc)
          = (10 * (n / 10) + n % 10) * 10 ^ acc.length + decimalValue acc := by ring
        _ = n * 10 ^ acc.length + decimalValue acc := by rw [this]

theorem decimalValue_decimal (n : Nat) : decimalValue (decimal n) = n := by
  unfold decimal
  rw [decimalAux_value (n + 1) n [] (by omega)]
  simp [decimalValue]

theorem decimal_injective : Function.Injective decimal := by
  intro a b h
  have := congrArg decimalValue h
  rwa [decimalValue_decimal, decimalValue_decimal] at this

theorem extractUserPromptsLoop_eq :
    ∀ (records : List Record) (prompts : List PromptMessage) (index : Nat),
      extractUserPromptsLoop records prompts index
        = prompts ++ numberFrom index (survivors records) := by
  intro records
  induction records with
  | nil => intro prompts index; simp [extractUserPromptsLoop, survivors, numberFrom]
  | cons r rest ih =>
    intro prompts index
    unfold extractUserPromptsLoop
    simp only [survivors] at ih ⊢
    by_cases h1 : getString r (lit "type") = lit "event_msg"
    · cases h2 : getMap r (lit "payload") with
      | none =>
        simp [h1, h2, isUserMessage, ih, List.filter_cons]
      | some payload =>
        by_cases h3 : getString payload (lit "type") = lit "user_message"
        · by_cases h4 : TrimSpace (getString payload (lit "message")) = []
          · simp [h1, h2, h3, h4, isUserMessage, isBlank, messageOf, ih, List.filter_cons]
          · simp [h1, h2, h3, h4, isUserMessage, isBlank, messageOf, ih, List.filter_cons,
              numberFrom, promptOf]
        · simp [h1, h2, h3, isUserMessage, ih, List.filter_cons]
    · simp [h1, isUserMessage, ih, List.filter_cons]

theorem extractUserPrompts_eq (records : List Record) :
    extractUserPrompts records = numberFrom 1 (survivors records) := by
  simp [extractUserPrompts, extractUserPromptsLoop_eq]

theorem numberFrom_length : ∀ (l : List Record) (i : Nat), (numberFrom i l).length = l.length := by
  intro l
  induction l with
  | nil => intro i; rfl
  | cons r t ih => intro i; simp [numberFrom, ih]

theorem numberFrom_map_ID : ∀ (l : List Record) (i : Nat),
    (numberFrom i l).map (fun p => p.ID)
      = (List.range l.length).map (fun j => lit "p_" ++ decimal (i + j)) := by
  intro l
  induction l with
  | nil => intro i; rfl
  | cons r t ih =>
    intro i
    simp only [numberFrom, List.map_cons, List.length_cons, List.range_succ_eq_map, ih,
      List.map_map, promptOf]
    simp only [Nat.add_zero, List.cons.injEq, true_and]
    apply List.map_congr_left
    intro j _
    simp only [Function.comp]
    congr 2
    omega

theorem numberFrom_map_body : ∀ (l : List Record) (i : Nat),
    (numberFrom i l).map (fun p => (p.Text, p.Timestamp))
      = l.map (fun r => (TrimSpace (messageOf r), getString r (lit "timestamp"))) := by
  intro l
  induction l with
  | nil => intro i; rfl
  | cons r t ih => intro i; simp [numberFrom, promptOf, ih]

theorem digit_encode (d : Nat) (h : d < 10) :
    String.utf8EncodeChar (Nat.digitChar d) = [(48 + d).toUInt8] := by
  interval_cases d <;> decide

theorem decimalAux_eq_toDigitsCore :
    ∀ (fuel n : Nat) (ds : List Char),
      (Nat.toDigitsCore 10 fuel n ds).flatMap String.utf8EncodeChar
        = decimalAux fuel n (ds.flatMap String.utf8EncodeChar) := by
  intro fuel
  induction fuel with
  | zero => intro n ds; rfl
  | succ f ih =>
    intro n ds
    have hd := digit_encode (n % 10) (Nat.mod_lt _ (by decide))
    unfold Nat.toDigitsCore decimalAux
    by_cases h : n / 10 = 0
    · simp [h, hd]
    · simp only [h, if_false]
      rw [ih]
      simp [hd]

/-- The model of the verb `%d` agrees with the decimal notation of the number. -/
theorem decimal_eq_repr (n : Nat) : decimal n = lit (toString n) := by
  unfold decimal lit
  have := decimalAux_eq_toDigitsCore (n + 1) n []
  simp only [List.flatMap_nil] at this
  rw [← this]
  rfl

/-! ## Prompt extraction -/

theorem numberFrom_mem_text : ∀ (l : List Record) (i : Nat) (p : PromptMessage),
    p ∈ numberFrom i l → ∃ r ∈ l, p.Text = TrimSpace (messageOf r) := by
  intro l
  induction l with
  | nil => intro i p h; simp [numberFrom] at h
  | cons r t ih =>
    intro i p h
    simp only [numberFrom, List.mem_cons] at h
    rcases h with h | h
    · exact ⟨r, by simp, by rw [h]; rfl⟩
    · obtain ⟨r1, hr1, he⟩ := ih (i + 1) p h
      exact ⟨r1, by simp [hr1], he⟩

theorem countP_split (p q : Record → Bool) (l : List Record) :
    l.countP p = l.countP (fun r => p r && q r) + l.countP (fun r => p r && !q r) := by
  induction l with
  | nil => rfl
  | cons r t ih =>
    simp only [List.countP_cons, ih]
    cases p r <;> cases q r <;> simp <;> omega

theorem survivors_length (records : List Record) :
    (survivors records).length = records.countP (fun r => isUserMessage r && !isBlank r) := by
  simp [survivors, List.countP_eq_length_filter]

theorem getString_of_string (m : Record) (key s : GoString)
    (h : m.lookup key = some (JValue.string s)) : getString m key = s := by
  simp [getString, h]

theorem getString_of_not_string (m : Record) (key : GoString)
    (h : ∀ s, m.lookup key ≠ some (JValue.string s)) : getString m key = [] := by
  unfold getString
  split
  · rename_i s hs
    exact absurd hs (h s)
  · rfl

/-- C1: the identifiers of the prompts returned by `extractUserPrompts` are
p_1, p_2, ..., p_k in that order, k being the number of prompts returned: the prompt at
position i (counted from 1) has the identifier "p_" followed by the decimal form of i,
and no identifier occurs twice. The decimal form is the usual one. -/
theorem extractUserPrompts_ids (records : List Record) :
    (extractUserPrompts records).map (fun p => p.ID)
        = (List.range (extractUserPrompts records).length).map
            (fun i => lit "p_" ++ decimal (i + 1))
      ∧ ((extractUserPrompts records).map (fun p => p.ID)).Nodup
      ∧ ∀ n, decimal n = lit (toString n) := by
  have hmap : (extractUserPrompts records).map (fun p => p.ID)
      = (List.range (extractUserPrompts records).length).map
          (fun i => lit "p_" ++ decimal (i + 1)) := by
    rw [extractUserPrompts_eq, numberFrom_map_ID, numberFrom_length]
    apply List.map_congr_left
    intro j _
    congr 2
    omega
  refine ⟨hmap, ?_, decimal_eq_repr⟩
  rw [hmap]
  apply List.Nodup.map _ (List.nodup_range _)
  intro a b h
  have h1 := List.append_cancel_left h
  have h2 := decimal_injective h1
  omega

/-- C2: the number of prompts returned by `extractUserPrompts` is at most the number of
qualifying records (type "event_msg", payload a map of type "user_message"), and it is
that number minus the number of qualifying records whose message is empty after
trimming. -/
theorem extractUserPrompts_count (records : List Record) :
    (extractUserPrompts records).length ≤ records.countP isUserMessage
      ∧ (extractUserPrompts records).length
          = records.countP isUserMessage
              - records.countP (fun r => isUserMessage r && isBlank r)
      ∧ records.countP (fun r => isUserMessage r && isBlank r)
          ≤ records.countP isUserMessage := by
  have hlen : (extractUserPrompts records).length
      = records.countP (fun r => isUserMessage r && !isBlank r) := by
    rw [extractUserPrompts_eq, numberFrom_length, survivors_length]
  have hsplit := countP_split isUserMessage isBlank records
  omega

/-- The text of an extracted prompt is not empty, starts and ends with a rune that is not
a space, and is left unchanged by `TrimSpace`. -/
theorem extractUserPrompts_text (records : List Record) (p : PromptMessage)
    (hp : p ∈ extractUserPrompts records) :
    p.Text ≠ [] ∧ isSpace (decodeRune p.Text).1 = false
      ∧ isSpace (decodeLastRune p.Text).1 = false ∧ TrimSpace p.Text = p.Text := by
  rw [extractUserPrompts_eq] at hp
  obtain ⟨r, hr, htext⟩ := numberFrom_mem_text _ _ _ hp
  have hne : p.Text ≠ [] := by
    simp only [survivors, List.mem_filter, Bool.and_eq_true, Bool.not_eq_true', isBlank,
      decide_eq_false_iff_not] at hr
    rw [htext]
    exact hr.2.2
  refine ⟨hne, ?_, ?_, ?_⟩
  · rcases TrimSpace_noLeading (messageOf r) with h | h
    · exact absurd (htext.trans h) hne
    · rw [htext]; exact h
  · rcases TrimSpace_noTrailing (messageOf r) with h | h
    · exact absurd (htext.trans h) hne
    · rw [htext]; exact h
  · rw [htext]; exact TrimSpace_idem _

/-- C3: the prompts returned by `extractUserPrompts` are, in stream order and one for
one, the qualifying records whose trimmed message is not empty: the text of a prompt is
the trimmed message of its record and its timestamp is the top-level timestamp string of
that record, empty when that field is absent or not a string. The text of every prompt is
not empty and has neither leading nor trailing white space. -/
theorem extractUserPrompts_content (records : List Record) :
    (extractUserPrompts records).map (fun p => (p.Text, p.Timestamp))
        = (survivors records).map
            (fun r => (TrimSpace (messageOf r), getString r (lit "timestamp")))
      ∧ (∀ p ∈ extractUserPrompts records,
          p.Text ≠ [] ∧ isSpace (decodeRune p.Text).1 = false
            ∧ isSpace (decodeLastRune p.Text).1 = false ∧ TrimSpace p.Text = p.Text)
      ∧ (∀ (r : Record) (s : GoString), r.lookup (lit "timestamp") = some (JValue.string s) →
          getString r (lit "timestamp") = s)
      ∧ (∀ r : Record, (∀ s, r.lookup (lit "timestamp") ≠ some (JValue.string s)) →
          getString r (lit "timestamp") = []) := by
  refine ⟨?_, ?_, fun r s h => getString_of_string r _ s h,
    fun r h => getString_of_not_string r _ h⟩
  · rw [extractUserPrompts_eq, numberFrom_map_body]
  · exact fun p hp => extractUserPrompts_text records p hp

/-! ## Metadata extraction -/

/-- The value of `extractSessionMeta` in terms of the first metadata record. -/
theorem extractSessionMeta_eq (records : List Record) :
    extractSessionMeta records =
      match firstSessionMeta records with
      | none => .error "session_meta record not found"
      | some m =>
        match getMap m (lit "payload") with
        | none => .error "session_meta payload missing"
        | some payload =>
          if getString payload (lit "id") = [] ∨ metaTimestamp m payload = []
              ∨ getString payload (lit "cwd") = [] then
            .error "session_meta missing required fields"
          else
            .ok (getString payload (lit "id"), metaTimestamp m payload,
              getString payload (lit "cwd")) := by
  induction records with
  | nil => rfl
  | cons r rest ih =>
    unfold extractSessionMeta
    by_cases h : getString r (lit "type") = lit "session_meta"
    · have hm : isSessionMeta r = true := by simp [isSessionMeta, h]
      simp only [firstSessionMeta, List.find?_cons, hm, h, ne_eq, not_true_eq_false, if_false]
      cases getMap r (lit "payload") with
      | none => rfl
      | some payload => simp only [metaTimestamp]
    · have hm : isSessionMeta r = false := by simp [isSessionMeta, h]
      simp only [firstSessionMeta, List.find?_cons, hm, h, ne_eq, not_false_eq_true, if_true]
      exact ih

theorem firstSessionMeta_append (pre rest : List Record) (m : Record)
    (hpre : ∀ r ∈ pre, isSessionMeta r = false) (hm : isSessionMeta m = true) :
    firstSessionMeta (pre ++ [m] ++ rest) = some m := by
  induction pre with
  | nil => simp [firstSessionMeta, List.find?_cons, hm]
  | cons r t ih =>
    have hr : isSessionMeta r = false := hpre r (by simp)
    have ht : ∀ r ∈ t, isSessionMeta r = false := fun x hx => hpre x (by simp [hx])
    have := ih ht
    simp only [firstSessionMeta, List.cons_append, List.find?_cons, hr] at this ⊢
    exact this

theorem firstSessionMeta_none (records : List Record)
    (h : ∀ r ∈ records, isSessionMeta r = false) : firstSessionMeta records = none := by
  simp only [firstSessionMeta, List.find?_eq_none]
  intro r hr
  simp [h r hr]

/-- The three values returned by `extractSessionMeta` are not empty. -/
theorem extractSessionMeta_ok_ne_nil (records : List Record)
    (sessionID createdAt workspaceRoot : GoString)
    (h : extractSessionMeta records = .ok (sessionID, createdAt, workspaceRoot)) :
    sessionID ≠ [] ∧ createdAt ≠ [] ∧ workspaceRoot ≠ [] := by
  have key := extractSessionMeta_eq records
  rw [h] at key
  cases hf : firstSessionMeta records with
  | none => simp [hf] at key
  | some m =>
    cases hp : getMap m (lit "payload") with
    | none => simp [hf, hp] at key
    | some payload =>
      simp only [hf, hp] at key
      by_cases hc : getString payload (lit "id") = [] ∨ metaTimestamp m payload = []
          ∨ getString payload (lit "cwd") = []
      · rw [if_pos hc] at key
        simp at key
      · rw [if_neg hc] at key
        simp only [not_or] at hc
        simp only [Except.ok.injEq, Prod.mk.injEq] at key
        rw [key.1, key.2.1, key.2.2]
        exact hc

/-- C4: `extractSessionMeta` succeeds exactly when the stream has a first record of type
"session_meta", the payload of that record is a map, and the identifier (payload id), the
timestamp (payload timestamp, or the top-level timestamp of the record when the payload
one is empty) and the workspace root (payload cwd) are non-empty strings; it then
returns these three values. When the payload of that first record is not a map the
error is "session_meta payload missing"; when one of the three values is empty the
error is "session_meta missing required fields". -/
theorem extractSessionMeta_spec (records : List Record) :
    ((∃ v, extractSessionMeta records = .ok v) ↔
        ∃ m payload, firstSessionMeta records = some m
          ∧ getMap m (lit "payload") = some payload
          ∧ getString payload (lit "id") ≠ [] ∧ metaTimestamp m payload ≠ []
          ∧ getString payload (lit "cwd") ≠ [])
      ∧ (∀ m payload, firstSessionMeta records = some m →
          getMap m (lit "payload") = some payload →
          getString payload (lit "id") ≠ [] → metaTimestamp m payload ≠ [] →
          getString payload (lit "cwd") ≠ [] →
          extractSessionMeta records
            = .ok (getString payload (lit "id"), metaTimestamp m payload,
                getString payload (lit "cwd")))
      ∧ (∀ m, firstSessionMeta records = some m → getMap m (lit "payload") = none →
          extractSessionMeta records = .error "session_meta payload missing")
      ∧ (∀ m payload, firstSessionMeta records = some m →
          getMap m (lit "payload") = some payload →
          (getString payload (lit "id") = [] ∨ metaTimestamp m payload = []
            ∨ getString payload (lit "cwd") = []) →
          extractSessionMeta records = .error "session_meta missing required fields") := by
  have key := extractSessionMeta_eq records
  refine ⟨⟨?_, ?_⟩, ?_, ?_, ?_⟩
  · rintro ⟨v, hv⟩
    rw [hv] at key
    cases hf : firstSessionMeta records with
    | none => simp [hf] at key
    | some m =>
      cases hp : getMap m (lit "payload") with
      | none => simp [hf, hp] at key
      | some payload =>
        simp only [hf, hp] at key
        by_cases hc : getString payload (lit "id") = [] ∨ metaTimestamp m payload = []
            ∨ getString payload (lit "cwd") = []
        · rw [if_pos hc] at key
          simp at key
        · simp only [not_or] at hc
          exact ⟨m, payload, rfl, hp, hc.1, hc.2.1, hc.2.2⟩
  · rintro ⟨m, payload, hf, hp, h1, h2, h3⟩
    rw [key]
    simp [hf, hp, h1, h2, h3]
  · intro m payload hf hp h1 h2 h3
    rw [key]
    simp [hf, hp, h1, h2, h3]
  · intro m hf hp
    rw [key]
    simp [hf, hp]
  · intro m payload hf hp hc
    rw [key]
    simp only [hf, hp]
    rw [if_pos hc]

/-- C5: only the first record of type "session_meta" is considered. When `pre` has no
metadata record and `m` is one, the result of `extractSessionMeta` on `pre`, `m` and any
records after them does not depend on the records after `m`: it is the result for the
single record `m`, value or error alike. So a malformed first metadata record makes the
extraction fail whatever follows it. -/
theorem extractSessionMeta_first_only (pre rest1 rest2 : List Record) (m : Record)
    (hpre : ∀ r ∈ pre, getString r (lit "type") ≠ lit "session_meta")
    (hm : getString m (lit "type") = lit "session_meta") :
    extractSessionMeta (pre ++ [m] ++ rest1) = extractSessionMeta (pre ++ [m] ++ rest2)
      ∧ extractSessionMeta (pre ++ [m] ++ rest1) = extractSessionMeta [m] := by
  have hpre1 : ∀ r ∈ pre, isSessionMeta r = false :=
    fun r hr => by simp [isSessionMeta, hpre r hr]
  have hm1 : isSessionMeta m = true := by simp [isSessionMeta, hm]
  have h1 := firstSessionMeta_append pre rest1 m hpre1 hm1
  have h2 := firstSessionMeta_append pre rest2 m hpre1 hm1
  have h3 := firstSessionMeta_append [] [] m (by simp) hm1
  simp only [List.nil_append, List.append_nil] at h3
  rw [extractSessionMeta_eq (pre ++ [m] ++ rest1), extractSessionMeta_eq (pre ++ [m] ++ rest2),
    extractSessionMeta_eq [m], h1, h2, h3]
  exact ⟨rfl, rfl⟩

theorem extractSessionMeta_first_only_witness :
    (∀ r ∈ [exEvent], getString r (lit "type") ≠ lit "session_meta")
      ∧ getString exMetaBad (lit "type") = lit "session_meta"
      ∧ (extractSessionMeta ([exEvent] ++ [exMetaBad] ++ [exMetaGood])
            = extractSessionMeta ([exEvent] ++ [exMetaBad] ++ [])
          ∧ extractSessionMeta ([exEvent] ++ [exMetaBad] ++ [exMetaGood])
            = extractSessionMeta [exMetaBad])
      ∧ extractSessionMeta [exMetaBad] = .error "session_meta payload missing"
      ∧ extractSessionMeta [exMetaGood]
          = .ok (lit "s1", lit "2024-01-01T00:00:00Z", lit "/work") :=
  ⟨by decide, by decide,
    extractSessionMeta_first_only [exEvent] [exMetaGood] [] exMetaBad (by decide) (by decide),
    by decide, by decide⟩

/-- C6, as stated, fails: the first metadata record has a payload with a non-empty id
and cwd and no timestamp, its top-level timestamp is the empty string, and
`extractSessionMeta` returns no creation timestamp but the error for missing fields. -/
theorem extractSessionMeta_fallback_counterexample :
    firstSessionMeta [exMetaEmptyTop] = some exMetaEmptyTop
      ∧ getMap exMetaEmptyTop (lit "payload") = some exPayloadNoTs
      ∧ getString exPayloadNoTs (lit "id") = lit "s1"
      ∧ getString exPayloadNoTs (lit "cwd") = lit "/work"
      ∧ exPayloadNoTs.lookup (lit "timestamp") = none
      ∧ exMetaEmptyTop.lookup (lit "timestamp") = some (JValue.string [])
      ∧ extractSessionMeta [exMetaEmptyTop]
          = .error "session_meta missing required fields"
      ∧ ¬ ∃ v, extractSessionMeta [exMetaEmptyTop] = .ok v :=
  ⟨by rfl, by rfl, by decide, by decide, by rfl, by rfl, by decide, by
    rintro ⟨v, hv⟩
    have herr : extractSessionMeta [exMetaEmptyTop]
        = .error "session_meta missing required fields" := by decide
    rw [herr] at hv
    exact absurd hv (by simp)⟩

/-- C6, amended: when the payload of the first metadata record has a non-empty id and
cwd and no timestamp, `extractSessionMeta` returns the top-level timestamp string of the
record, unchanged, as creation timestamp if that string is not empty, and fails with
"session_meta missing required fields" if it is empty (or absent, or not a string); when
the payload timestamp is a non-empty string, it is returned unchanged whatever the
top-level timestamp is. -/
theorem extractSessionMeta_fallback (records : List Record) (m payload : Record)
    (hfirst : firstSessionMeta records = some m)
    (hpayload : getMap m (lit "payload") = some payload)
    (hid : getString payload (lit "id") ≠ [])
    (hcwd : getString payload (lit "cwd") ≠ []) :
    (payload.lookup (lit "timestamp") = none →
        extractSessionMeta records =
          if getString m (lit "timestamp") = [] then
            .error "session_meta missing required fields"
          else
            .ok (getString payload (lit "id"), getString m (lit "timestamp"),
              getString payload (lit "cwd")))
      ∧ (∀ s, payload.lookup (lit "timestamp") = some (JValue.string s) → s ≠ [] →
          extractSessionMeta records
            = .ok (getString payload (lit "id"), s, getString payload (lit "cwd"))) := by
  have key := extractSessionMeta_eq records
  simp only [hfirst, hpayload] at key
  constructor
  · intro hno
    have hts : getString payload (lit "timestamp") = [] := by simp [getString, hno]
    have hmt : metaTimestamp m payload = getString m (lit "timestamp") := by
      simp [metaTimestamp, hts]
    rw [key, hmt]
    by_cases htop : getString m (lit "timestamp") = []
    · simp [htop]
    · simp [htop, hid, hcwd]
  · intro s hs hne
    have hts : getString payload (lit "timestamp") = s := by simp [getString, hs]
    have hmt : metaTimestamp m payload = s := by
      simp [metaTimestamp, hts, hne]
    rw [key, hmt]
    simp [hne, hid, hcwd]

theorem extractSessionMeta_fallback_witness :
    firstSessionMeta [exMetaTop] = some exMetaTop
      ∧ getMap exMetaTop (lit "payload") = some exPayloadNoTs
      ∧ getString exPayloadNoTs (lit "id") ≠ []
      ∧ getString exPayloadNoTs (lit "cwd") ≠ []
      ∧ exPayloadNoTs.lookup (lit "timestamp") = none
      ∧ getString exMetaTop (lit "timestamp") = lit "2024-01-02T00:00:00Z"
      ∧ extractSessionMeta [exMetaTop]
          = .ok (lit "s1", lit "2024-01-02T00:00:00Z", lit "/work") :=
  ⟨by rfl, by rfl, by decide, by decide, by rfl, by decide,
    ((extractSessionMeta_fallback [exMetaTop] exMetaTop exPayloadNoTs (by rfl) (by rfl)
      (by decide) (by decide)).1 (by rfl)).trans (by decide)⟩

/-! ## The pipeline -/

theorem marshal_error_ne (err : String) :
    "marshal prompt extract: " ++ err ≠ "no user prompts found in session" := by
  intro h
  have h1 := congrArg (fun s => s.data.head?) h
  simp [String.data_append] at h1

theorem extractUserPrompts_nil_iff (records : List Record) :
    extractUserPrompts records = [] ↔ survivors records = [] := by
  rw [extractUserPrompts_eq]
  constructor
  · intro h
    have := congrArg List.length h
    rw [numberFrom_length] at this
    exact List.length_eq_zero.mp this
  · intro h
    rw [h]
    rfl

/-- C7: when no record has the type "session_meta", `extractSessionMeta` fails with
"session_meta record not found" and so does the pipeline of `BuildPromptExtract` on
these records, whatever `extractUserPrompts` gives for them: the metadata check comes
first. This holds for every list of records, the non-empty ones in particular. -/
theorem no_session_meta_not_found (env : Env) (resolvedInput : GoString)
    (records : List Record)
    (hnone : ∀ r ∈ records, getString r (lit "type") ≠ lit "session_meta") :
    extractSessionMeta records = .error "session_meta record not found"
      ∧ buildFromRecords env resolvedInput records = .error "session_meta record not found" := by
  have hf : firstSessionMeta records = none :=
    firstSessionMeta_none records (fun r hr => by simp [isSessionMeta, hnone r hr])
  have h1 : extractSessionMeta records = .error "session_meta record not found" := by
    rw [extractSessionMeta_eq, hf]
  refine ⟨h1, ?_⟩
  unfold buildFromRecords
  rw [h1]

theorem no_session_meta_not_found_witness :
    (∀ r ∈ [exEvent], getString r (lit "type") ≠ lit "session_meta")
      ∧ extractUserPrompts [exEvent] = [{ ID := lit "p_1", Timestamp := [], Text := lit "Hello" }]
      ∧ extractSessionMeta [exEvent] = .error "session_meta record not found"
      ∧ buildFromRecords exEnv (lit "/s/a.jsonl") [exEvent]
          = .error "session_meta record not found" :=
  ⟨by decide, by decide,
    no_session_meta_not_found exEnv (lit "/s/a.jsonl") [exEvent] (by decide)⟩

/-- C8: on records for which `extractSessionMeta` succeeds, the pipeline of
`BuildPromptExtract` fails with "no user prompts found in session" exactly when
`extractUserPrompts` returns no prompt, that is when no qualifying record has a
non-empty trimmed message; a successful extract never has an empty prompt list. -/
theorem no_prompts_is_fatal (env : Env) (resolvedInput : GoString) (records : List Record)
    (hmeta : ∃ v, extractSessionMeta records = .ok v) :
    (buildFromRecords env resolvedInput records = .error "no user prompts found in session"
        ↔ extractUserPrompts records = [])
      ∧ (extractUserPrompts records = [] ↔ survivors records = [])
      ∧ (∀ result, buildFromRecords env resolvedInput records = .ok result →
          result.Extract.Prompts ≠ []) := by
  obtain ⟨⟨sessionID, createdAt, workspaceRoot⟩, hv⟩ := hmeta
  refine ⟨?_, extractUserPrompts_nil_iff records, ?_⟩
  · unfold buildFromRecords
    simp only [hv, List.length_eq_zero]
    by_cases hp : extractUserPrompts records = []
    · simp [hp]
    · simp only [hp, if_false, iff_false]
      cases env.marshalIndent _ with
      | error err =>
        simp only [ne_eq, Except.error.injEq]
        exact marshal_error_ne err
      | ok payload => simp
  · intro result
    unfold buildFromRecords
    simp only [hv, List.length_eq_zero]
    by_cases hp : extractUserPrompts records = []
    · simp [hp]
    · simp only [hp, if_false]
      cases env.marshalIndent _ with
      | error err => simp
      | ok payload =>
        simp only [Except.ok.injEq]
        intro h
        rw [← h]
        exact hp

theorem no_prompts_is_fatal_witness :
    (∃ v, extractSessionMeta [exMetaGood] = .ok v)
      ∧ ((buildFromRecords exEnv (lit "/s/a.jsonl") [exMetaGood]
            = .error "no user prompts found in session"
          ↔ extractUserPrompts [exMetaGood] = [])
        ∧ (extractUserPrompts [exMetaGood] = [] ↔ survivors [exMetaGood] = [])
        ∧ (∀ result, buildFromRecords exEnv (lit "/s/a.jsonl") [exMetaGood] = .ok result →
            result.Extract.Prompts ≠ []))
      ∧ buildFromRecords exEnv (lit "/s/a.jsonl") [exMetaGood]
          = .error "no user prompts found in session" :=
  ⟨⟨_, by rfl⟩,
    no_prompts_is_fatal exEnv (lit "/s/a.jsonl") [exMetaGood] ⟨_, by rfl⟩, by decide⟩

theorem Ext_nil : Ext [] = [] := rfl

theorem walkFn_ok (files files2 : List Candidate) (v : WalkVisit)
    (h : walkFn files v = .ok files2) :
    files2 = files ∨ ∃ t, files2 = files ++ [{ path := v.path, modTime := t }] := by
  unfold walkFn at h
  split at h
  · simp at h
  · split_ifs at h
    · left; simp at h; exact h.symm
    · left; simp at h; exact h.symm
    · split at h
      · simp at h
      · rename_i t _
        right
        simp at h
        exact ⟨t, h.symm⟩

theorem walkAll_paths : ∀ (visits : List WalkVisit) (files files2 : List Candidate),
    walkAll visits files = .ok files2 →
      ∀ c ∈ files2, c ∈ files ∨ ∃ v ∈ visits, c.path = v.path := by
  intro visits
  induction visits with
  | nil =>
    intro files files2 h c hc
    simp [walkAll] at h
    left
    rw [h]
    exact hc
  | cons v rest ih =>
    intro files files2 h c hc
    unfold walkAll at h
    cases hw : walkFn files v with
    | error err => simp [hw] at h
    | ok files1 =>
      simp only [hw] at h
      rcases ih files1 files2 h c hc with h1 | ⟨w, hw1, hw2⟩
      · rcases walkFn_ok files files1 v hw with h2 | ⟨t, h2⟩
        · left; rw [h2] at h1; exact h1
        · rw [h2, List.mem_append] at h1
          rcases h1 with h1 | h1
          · left; exact h1
          · right
            simp only [List.mem_singleton] at h1
            exact ⟨v, by simp, by rw [h1]⟩
      · right
        exact ⟨w, by simp [hw1], hw2⟩

theorem findLatestJSONL_ne_nil (env : Env) (root latest : GoString)
    (hsort : SortPermutes env) (hwalk : WalkPathsNonEmpty env)
    (h : findLatestJSONL env root = .ok latest) : latest ≠ [] := by
  unfold findLatestJSONL at h
  cases hw : walkAll (env.walkDir root) [] with
  | error err => simp [hw] at h
  | ok files =>
    simp only [hw] at h
    split_ifs at h with hlen
    have hperm := hsort modTimeAfter files
    cases hs : env.sortSlice modTimeAfter files with
    | nil =>
      rw [hs] at hperm
      have := hperm.length_eq
      simp at this
      omega
    | cons first rest =>
      simp only [hs, Except.ok.injEq] at h
      have hmem : first ∈ files := hperm.subset (by rw [hs]; simp)
      rcases walkAll_paths _ _ _ hw first hmem with h1 | ⟨v, hv, hp⟩
      · simp at h1
      · rw [← h, hp]
        exact hwalk root v hv

theorem resolveInput_ne_nil (env : Env) (inputPath resolved : GoString)
    (hsort : SortPermutes env) (hwalk : WalkPathsNonEmpty env)
    (h : resolveInput env inputPath = .ok resolved) : resolved ≠ [] := by
  unfold resolveInput at h
  cases hst : env.stat inputPath with
  | error err => simp [hst] at h
  | ok isDir =>
    simp only [hst] at h
    cases isDir with
    | true =>
      simp only [if_true] at h
      cases hf : findLatestJSONL env inputPath with
      | error err => simp [hf] at h
      | ok latest =>
        simp only [hf, Except.ok.injEq] at h
        rw [← h]
        exact findLatestJSONL_ne_nil env inputPath latest hsort hwalk hf
    | false =>
      simp only [Bool.false_eq_true, if_false] at h
      split_ifs at h with hext
      simp only [Except.ok.injEq] at h
      rw [← h]
      intro hnil
      rw [hnil] at hext
      exact hext (by decide)

/-- C9: whenever `BuildPromptExtract` succeeds, the input was resolved to a file path and
records were read from that file, and the extract has schema version "1.0", source
"codex", a session whose four fields are non-empty, the source path being the resolved
path, and a non-empty prompt list, the one `extractUserPrompts` gives for the records
read. The two hypotheses state what the program relies on from the library:
`sort.Slice` permutes its slice and `filepath.WalkDir` reports non-empty paths. -/
theorem BuildPromptExtract_success (env : Env) (opts : GenerateOptions)
    (result : ExtractResult) (hsort : SortPermutes env) (hwalk : WalkPathsNonEmpty env)
    (h : BuildPromptExtract env opts = some (.ok result)) :
    ∃ resolvedInput records,
      resolveInput env opts.InputPath = .ok resolvedInput
        ∧ readJSONLRecords env resolvedInput = some (.ok records)
        ∧ result.Extract.SchemaVersion = lit "1.0"
        ∧ result.Extract.Source = lit "codex"
        ∧ result.Extract.Session.ID ≠ []
        ∧ result.Extract.Session.CreatedAt ≠ []
        ∧ result.Extract.Session.WorkspaceRoot ≠ []
        ∧ result.Extract.Session.SourcePath ≠ []
        ∧ result.Extract.Session.SourcePath = resolvedInput
        ∧ result.Extract.Prompts ≠ []
        ∧ result.Extract.Prompts = extractUserPrompts records
        ∧ extractSessionMeta records
            = .ok (result.Extract.Session.ID, result.Extract.Session.CreatedAt,
                result.Extract.Session.WorkspaceRoot) := by
  unfold BuildPromptExtract at h
  cases hr : resolveInput env opts.InputPath with
  | error err => simp [hr] at h
  | ok resolvedInput =>
    simp only [hr] at h
    have hres := resolveInput_ne_nil env _ _ hsort hwalk hr
    cases hrd : readJSONLRecords env resolvedInput with
    | none => simp [hrd] at h
    | some rd =>
      cases rd with
      | error err => simp [hrd] at h
      | ok records =>
        simp only [hrd, Option.some.injEq] at h
        refine ⟨resolvedInput, records, rfl, hrd, ?_⟩
        unfold buildFromRecords at h
        cases hm : extractSessionMeta records with
        | error err => simp [hm] at h
        | ok v =>
          obtain ⟨sessionID, createdAt, workspaceRoot⟩ := v
          simp only [hm, List.length_eq_zero] at h
          have hval := extractSessionMeta_ok_ne_nil records _ _ _ hm
          by_cases hps : extractUserPrompts records = []
          · simp [hps] at h
          · simp only [hps, if_false] at h
            cases hj : env.marshalIndent
                { SchemaVersion := lit "1.0", Source := lit "codex",
                  Session := { ID := sessionID, CreatedAt := createdAt,
                               WorkspaceRoot := workspaceRoot, SourcePath := resolvedInput },
                  Prompts := extractUserPrompts records } with
            | error err => simp [hj] at h
            | ok payload2 =>
              simp only [hj, Except.ok.injEq] at h
              subst h
              simp only
              refine ⟨trivial, trivial, ?_, ?_, ?_, hres, trivial, hps, trivial, trivial⟩
              · exact hval.1
              · exact hval.2.1
              · exact hval.2.2

theorem exEnv_sortPermutes : SortPermutes exEnv :=
  fun _ files => List.perm_insertionSort _ files

theorem exEnv_walkPathsNonEmpty : WalkPathsNonEmpty exEnv := by
  intro root v hv
  simp only [exEnv] at hv
  split_ifs at hv
  · simp only [List.mem_cons, List.mem_singleton, List.not_mem_nil, or_false] at hv
    rcases hv with h | h | h | h <;> (rw [h]; decide)
  · simp at hv

theorem BuildPromptExtract_success_witness :
    SortPermutes exEnv ∧ WalkPathsNonEmpty exEnv
      ∧ BuildPromptExtract exEnv exOpts = some (.ok exResult)
      ∧ ∃ resolvedInput records,
          resolveInput exEnv exOpts.InputPath = .ok resolvedInput
            ∧ readJSONLRecords exEnv resolvedInput = some (.ok records)
            ∧ exResult.Extract.SchemaVersion = lit "1.0"
            ∧ exResult.Extract.Source = lit "codex"
            ∧ exResult.Extract.Session.ID ≠ []
            ∧ exResult.Extract.Session.CreatedAt ≠ []
            ∧ exResult.Extract.Session.WorkspaceRoot ≠ []
            ∧ exResult.Extract.Session.SourcePath ≠ []
            ∧ exResult.Extract.Session.SourcePath = resolvedInput
            ∧ exResult.Extract.Prompts ≠ []
            ∧ exResult.Extract.Prompts = extractUserPrompts records
            ∧ extractSessionMeta records
                = .ok (exResult.Extract.Session.ID, exResult.Extract.Session.CreatedAt,
                    exResult.Extract.Session.WorkspaceRoot) :=
  ⟨exEnv_sortPermutes, exEnv_walkPathsNonEmpty, by decide,
    BuildPromptExtract_success exEnv exOpts exResult exEnv_sortPermutes
      exEnv_walkPathsNonEmpty (by decide)⟩

/-! ## Reading the records -/

theorem readStringNL_spec (c : GoString) :
    (∃ pre unread, c = pre ++ 0x0A :: unread ∧ (∀ x ∈ pre, x ≠ 0x0A)
        ∧ readStringNL c = (pre ++ [0x0A], unread, false))
      ∨ ((∀ x ∈ c, x ≠ 0x0A) ∧ readStringNL c = (c, [], true)) := by
  induction c with
  | nil => right; exact ⟨by simp, rfl⟩
  | cons b rest ih =>
    by_cases hb : b = 0x0A
    · left
      exact ⟨[], rest, by simp [hb], by simp, by simp [readStringNL, hb]⟩
    · rcases ih with ⟨pre, unread, hc, hpre, hr⟩ | ⟨hno, hr⟩
      · left
        refine ⟨b :: pre, unread, by simp [hc], ?_, by simp [readStringNL, hb, hr]⟩
        intro x hx
        rcases List.mem_cons.mp hx with h | h
        · rw [h]; exact hb
        · exact hpre x h
      · right
        refine ⟨?_, by simp [readStringNL, hb, hr]⟩
        intro x hx
        rcases List.mem_cons.mp hx with h | h
        · rw [h]; exact hb
        · exact hno x h

theorem TrimSuffixNL_append (pre : GoString) : TrimSuffixNL (pre ++ [0x0A]) = pre := by
  simp [TrimSuffixNL]

theorem TrimSuffixNL_of_no_LF (c : GoString) (h : ∀ x ∈ c, x ≠ 0x0A) : TrimSuffixNL c = c := by
  unfold TrimSuffixNL
  split_ifs with hl
  · exact absurd rfl (h 0x0A (List.mem_of_getLast?_eq_some hl))
  · rfl

theorem linesOf_no_LF (c : GoString) (h : ∀ x ∈ c, x ≠ 0x0A) : linesOf c = [c] := by
  unfold linesOf
  apply List.splitOnP_eq_single
  intro x hx
  simpa using h x hx

theorem linesOf_append (pre unread : GoString) (h : ∀ x ∈ pre, x ≠ 0x0A) :
    linesOf (pre ++ 0x0A :: unread) = pre :: linesOf unread := by
  unfold linesOf
  apply List.splitOnP_first
  · intro x hx
    simpa using h x hx
  · simp

theorem recordOfLine_cases (env : Env) (line : GoString) :
    (TrimSpace line = [] ∧ recordOfLine env line = none)
      ∨ (TrimSpace line ≠ [] ∧ env.unmarshal (TrimSpace line) = none
          ∧ recordOfLine env line = none)
      ∨ (∃ record, TrimSpace line ≠ [] ∧ env.unmarshal (TrimSpace line) = some record
          ∧ recordOfLine env line = some record) := by
  unfold recordOfLine
  by_cases h : TrimSpace line = []
  · left; simp [h]
  · right
    cases hu : env.unmarshal (TrimSpace line) with
    | none => left; simp [h]
    | some record => right; exact ⟨record, h, rfl, by simp [h]⟩

theorem readLoop_eq (env : Env) :
    ∀ (fuel : Nat) (c : GoString) (records : List Record), c.length < fuel →
      readLoop env none fuel c records =
        some (if (records ++ recordsOf env c).length = 0 then
                .error "session file is empty or unreadable"
              else .ok (records ++ recordsOf env c)) := by
  intro fuel
  induction fuel with
  | zero => intro c records h; omega
  | succ n ih =>
    intro c records hlen
    unfold readLoop
    rcases readStringNL_spec c with ⟨pre, unread, hc, hpre, hr⟩ | ⟨hno, hr⟩
    · rw [hr]
      simp only [TrimSuffixNL_append, Bool.false_eq_true, if_false]
      have hlt : unread.length < n := by
        rw [hc] at hlen
        simp only [List.length_append, List.length_cons] at hlen
        omega
      have hrec : recordsOf env c = (recordOfLine env pre).toList ++ recordsOf env unread := by
        unfold recordsOf
        rw [hc, linesOf_append pre unread hpre, List.filterMap_cons]
        cases recordOfLine env pre <;> simp
      rw [hrec]
      rcases recordOfLine_cases env pre with ⟨h1, h2⟩ | ⟨h1, h2, h3⟩ | ⟨record, h1, h2, h3⟩
      · simp only [h1, ne_eq, not_true_eq_false, if_false, h2]
        rw [ih unread _ hlt]
        simp
      · simp only [h1, ne_eq, not_false_eq_true, if_true, h2, h3]
        rw [ih unread _ hlt]
        simp
      · simp only [h1, ne_eq, not_false_eq_true, if_true, h2, h3]
        rw [ih unread _ hlt]
        simp
    · rw [hr]
      simp only [TrimSuffixNL_of_no_LF c hno, if_true]
      have hrec : recordsOf env c = (recordOfLine env c).toList := by
        unfold recordsOf
        rw [linesOf_no_LF c hno, List.filterMap_cons]
        cases recordOfLine env c <;> simp
      rw [hrec]
      rcases recordOfLine_cases env c with ⟨h1, h2⟩ | ⟨h1, h2, h3⟩ | ⟨record, h1, h2, h3⟩
      · simp only [h1, ne_eq, not_true_eq_false, if_false, h2]
        split_ifs <;> simp_all
      · simp only [h1, ne_eq, not_false_eq_true, if_true, h2, h3]
        split_ifs <;> simp_all
      · simp only [h1, ne_eq, not_false_eq_true, if_true, h2, h3]
        simp

theorem readLoop_isSome (env : Env) (final : Option String) :
    ∀ (fuel : Nat) (c : GoString) (records : List Record), c.length < fuel →
      ∃ r, readLoop env final fuel c records = some r := by
  intro fuel
  induction fuel with
  | zero => intro c records h; omega
  | succ n ih =>
    intro c records hlen
    unfold readLoop
    rcases readStringNL_spec c with ⟨pre, unread, hc, hpre, hr⟩ | ⟨hno, hr⟩
    · rw [hr]
      have hlt : unread.length < n := by
        rw [hc] at hlen
        simp only [List.length_append, List.length_cons] at hlen
        omega
      cases final with
      | none => simp only [Bool.false_eq_true, if_false]; exact ih _ _ hlt
      | some err => simp only [Bool.false_eq_true, if_false]; exact ih _ _ hlt
    · rw [hr]
      cases final with
      | none =>
        simp only [if_true]
        split_ifs <;> exact ⟨_, rfl⟩
      | some err => exact ⟨_, rfl⟩

/-- The reading loop always ends within its bound: `readJSONLRecords` and
`BuildPromptExtract` return a value or an error for every environment and input. -/
theorem BuildPromptExtract_returns (env : Env) (opts : GenerateOptions) :
    (∀ path, ∃ r, readJSONLRecords env path = some r)
      ∧ ∃ r, BuildPromptExtract env opts = some r := by
  have hread : ∀ path, ∃ r, readJSONLRecords env path = some r := by
    intro path
    unfold readJSONLRecords
    cases env.openFile path with
    | error err => exact ⟨_, rfl⟩
    | ok v =>
      obtain ⟨content, final⟩ := v
      exact readLoop_isSome env final _ content [] (by omega)
  refine ⟨hread, ?_⟩
  unfold BuildPromptExtract
  cases resolveInput env opts.InputPath with
  | error err => exact ⟨_, rfl⟩
  | ok resolvedInput =>
    obtain ⟨r, hr⟩ := hread resolvedInput
    simp only [hr]
    cases r with
    | error err => exact ⟨_, rfl⟩
    | ok records => exact ⟨_, rfl⟩

theorem splitOnP_append_sep (p : UInt8 → Bool) (sep : UInt8) (hsep : p sep = true) :
    ∀ (a b : GoString), (a ++ sep :: b).splitOnP p = a.splitOnP p ++ b.splitOnP p := by
  intro a
  induction a with
  | nil => intro b; simp [List.splitOnP_cons, hsep, List.splitOnP_nil]
  | cons x t ih =>
    intro b
    rw [List.cons_append, List.splitOnP_cons, List.splitOnP_cons, ih b]
    by_cases hx : p x = true
    · simp [hx]
    · simp only [hx, Bool.false_eq_true, if_false]
      cases hs : List.splitOnP p t with
      | nil => exact absurd hs (List.splitOnP_ne_nil p t)
      | cons l ls => simp

theorem recordsOf_append (env : Env) (a b : GoString) :
    recordsOf env (a ++ 0x0A :: b) = recordsOf env a ++ recordsOf env b := by
  unfold recordsOf linesOf
  rw [splitOnP_append_sep _ 0x0A (by simp), List.filterMap_append]

/-- C10: tolerant parsing. When the whole content of the file can be read,
`readJSONLRecords` returns, in file order, the records of the lines of the content (the
piece after the last line feed included) that are not blank after trimming and that
parse; it fails with "session file is empty or unreadable" exactly when no line has a
record. A line without record changes nothing to the records of the other lines. -/
theorem readJSONLRecords_spec (env : Env) (path content : GoString)
    (hopen : env.openFile path = .ok (content, none)) :
    readJSONLRecords env path =
        some (if (recordsOf env content).length = 0 then .error "session file is empty or unreadable"
              else .ok (recordsOf env content))
      ∧ (readJSONLRecords env path = some (.error "session file is empty or unreadable")
          ↔ ∀ line ∈ linesOf content, recordOfLine env line = none)
      ∧ (∀ a bad b : GoString, (∀ x ∈ bad, x ≠ 0x0A) → recordOfLine env bad = none →
          recordsOf env (a ++ 0x0A :: (bad ++ 0x0A :: b)) = recordsOf env (a ++ 0x0A :: b)) := by
  have hmain : readJSONLRecords env path =
      some (if (recordsOf env content).length = 0 then .error "session file is empty or unreadable"
            else .ok (recordsOf env content)) := by
    unfold readJSONLRecords
    rw [hopen]
    simp only
    rw [readLoop_eq env _ content [] (by omega)]
    simp only [List.nil_append]
  refine ⟨hmain, ?_, ?_⟩
  · rw [hmain]
    have hnil : recordsOf env content = [] ↔
        ∀ line ∈ linesOf content, recordOfLine env line = none := by
      unfold recordsOf
      rw [List.filterMap_eq_nil_iff]
    rw [← hnil]
    by_cases h : recordsOf env content = []
    · simp [h]
    · have hlen : (recordsOf env content).length ≠ 0 := by
        simpa [List.length_eq_zero] using h
      simp [h, hlen]
  · intro a bad b hbad hnone
    rw [recordsOf_append, recordsOf_append, recordsOf_append]
    have : recordsOf env bad = [] := by
      unfold recordsOf
      rw [linesOf_no_LF bad hbad]
      simp [hnone]
    rw [this, List.nil_append]

theorem readJSONLRecords_spec_witness :
    exEnv.openFile (lit "/s/a.jsonl") = .ok (exContent, none)
      ∧ (readJSONLRecords exEnv (lit "/s/a.jsonl") =
            some (if (recordsOf exEnv exContent).length = 0 then
                    .error "session file is empty or unreadable"
                  else .ok (recordsOf exEnv exContent))
          ∧ (readJSONLRecords exEnv (lit "/s/a.jsonl")
                = some (.error "session file is empty or unreadable")
              ↔ ∀ line ∈ linesOf exContent, recordOfLine exEnv line = none)
          ∧ (∀ a bad b : GoString, (∀ x ∈ bad, x ≠ 0x0A) → recordOfLine exEnv bad = none →
              recordsOf exEnv (a ++ 0x0A :: (bad ++ 0x0A :: b))
                = recordsOf exEnv (a ++ 0x0A :: b)))
      ∧ recordsOf exEnv exContent = [exMetaGood, exEvent] :=
  ⟨by rfl, readJSONLRecords_spec exEnv (lit "/s/a.jsonl") exContent (by rfl), by rfl⟩

/-! ## Trailing white space and rune boundaries -/

theorem firstInfo_range (b sz lo hi : Nat) (h : firstInfo b = some (sz, lo, hi)) :
    0x80 ≤ lo ∧ hi ≤ 0xBF := by
  unfold firstInfo at h
  split_ifs at h <;> simp at h <;> omega

theorem RuneStart_false_of_range (b : UInt8) (h1 : 0x80 ≤ b.toNat) (h2 : b.toNat ≤ 0xBF) :
    RuneStart b = false := by
  unfold RuneStart
  simp only [ne_eq, decide_not, Bool.not_eq_false', decide_eq_true_eq]
  omega

/-- The bytes of a rune after its first byte are continuation bytes. -/
theorem decodeRune_continuation (t : GoString) (i : Nat) (h1 : 1 ≤ i)
    (h2 : i < (decodeRune t).2) : ∃ b, t[i]? = some b ∧ RuneStart b = false := by
  match t with
  | [] => simp [decodeRune] at h2
  | s0 :: t0 =>
    rw [decodeRune_cons] at h2
    by_cases h0 : s0.toNat < 0x80
    · simp [h0] at h2; omega
    · simp only [h0, if_false] at h2
      cases hf : firstInfo s0.toNat with
      | none => simp [hf] at h2; omega
      | some info =>
        obtain ⟨sz, lo, hi⟩ := info
        have hsz := firstInfo_size _ _ _ _ hf
        have hr := firstInfo_range _ _ _ _ hf
        simp only [hf] at h2
        by_cases hlen : (s0 :: t0).length < sz
        · rw [if_pos hlen] at h2; simp at h2; omega
        · rw [if_neg hlen] at h2
          rcases t0 with _ | ⟨s1, t1⟩
          · simp at h2; omega
          · simp only at h2
            by_cases hc1 : s1.toNat < lo ∨ hi < s1.toNat
            · rw [if_pos hc1] at h2; simp at h2; omega
            · rw [if_neg hc1] at h2
              have hs1 : RuneStart s1 = false :=
                RuneStart_false_of_range s1 (by omega) (by omega)
              by_cases hsz2 : sz ≤ 2
              · rw [if_pos hsz2] at h2
                have hi1 : i = 1 := by omega
                subst hi1
                exact ⟨s1, by simp, hs1⟩
              · rw [if_neg hsz2] at h2
                rcases t1 with _ | ⟨s2, t2⟩
                · simp at h2; omega
                · simp only at h2
                  by_cases hc2 : s2.toNat < 0x80 ∨ 0xBF < s2.toNat
                  · rw [if_pos hc2] at h2; simp at h2; omega
                  · rw [if_neg hc2] at h2
                    have hs2 : RuneStart s2 = false :=
                      RuneStart_false_of_range s2 (by omega) (by omega)
                    by_cases hsz3 : sz ≤ 3
                    · rw [if_pos hsz3] at h2
                      have hi1 : i = 1 ∨ i = 2 := by omega
                      rcases hi1 with hi1 | hi1 <;> subst hi1
                      · exact ⟨s1, by simp, hs1⟩
                      · exact ⟨s2, by simp, hs2⟩
                    · rw [if_neg hsz3] at h2
                      rcases t2 with _ | ⟨s3, t3⟩
                      · simp at h2; omega
                      · simp only at h2
                        by_cases hc3 : s3.toNat < 0x80 ∨ 0xBF < s3.toNat
                        · rw [if_pos hc3] at h2; simp at h2; omega
                        · rw [if_neg hc3] at h2
                          have hs3 : RuneStart s3 = false :=
                            RuneStart_false_of_range s3 (by omega) (by omega)
                          have hi1 : i = 1 ∨ i = 2 ∨ i = 3 := by omega
                          rcases hi1 with hi1 | hi1 | hi1 <;> subst hi1
                          · exact ⟨s1, by simp, hs1⟩
                          · exact ⟨s2, by simp, hs2⟩
                          · exact ⟨s3, by simp, hs3⟩

/-- The three forms of the result of `decodeLastRune` on a non-empty string: the last
byte when it is ASCII, `RuneError` of width 1, or the rune decoded forwards from a
position `start` and ending at the end of the string. -/
theorem decodeLastRune_cases (s : GoString) (hs : s ≠ []) :
    (∃ b, s.getLast? = some b ∧ b.toNat < 0x80 ∧ decodeLastRune s = (b.toNat, 1))
      ∨ decodeLastRune s = (RuneError, 1)
      ∨ (∃ start, start < s.length ∧ decodeLastRune s = decodeRune (s.drop start)
          ∧ start + (decodeRune (s.drop start)).2 = s.length) := by
  have hlen : 0 < s.length := List.length_pos.mpr hs
  have hscan := scanStart_le s (max ((s.length : Int) - 4) 0) 4 ((s.length : Int) - 2)
  have hlast : s.getLast? = some (s.getD (s.length - 1) 0) := by
    rw [List.getLast?_eq_getElem?, List.getD_eq_getElem?_getD]
    have : s.length - 1 < s.length := by omega
    simp [List.getElem?_eq_getElem this]
  unfold decodeLastRune
  simp only []
  split_ifs with h1 h2 h3 h4 h5
  · omega
  · left; exact ⟨_, hlast, h2, rfl⟩
  · right; left; rfl
  · right; right
    simp only [ne_eq, not_not] at h4
    exact ⟨0, hlen, rfl, h4⟩
  · right; left; rfl
  · right; right
    simp only [ne_eq, not_not] at h5
    refine ⟨_, ?_, rfl, h5⟩
    omega

theorem trimRightAux_succ (fuel : Nat) (s : GoString) (hs : s ≠ []) :
    trimRightAux (fuel + 1) s =
      if isSpace (decodeLastRune s).1 then
        trimRightAux fuel (s.take (s.length - (decodeLastRune s).2))
      else s := by
  cases s with
  | nil => exact absurd rfl hs
  | cons b t => rfl

/-- The width of a last rune that is a space is less than the length of `q`, when the
string is `p ++ q`, the first rune of `q` is not a space and, unless `p` is empty, the
first byte of `q` can start a rune. -/
theorem lastSpace_width_lt (p q : GoString) (hq : q ≠ [])
    (hfirst : isSpace (decodeRune q).1 = false)
    (hstart : p = [] ∨ ∃ b t, q = b :: t ∧ RuneStart b = true)
    (hsp : isSpace (decodeLastRune (p ++ q)).1 = true) :
    (decodeLastRune (p ++ q)).2 < q.length := by
  have hs : p ++ q ≠ [] := by simp [hq]
  have hqlen : 0 < q.length := List.length_pos.mpr hq
  rcases decodeLastRune_cases (p ++ q) hs with ⟨b, hb, hlt, hd⟩ | hd | ⟨start, hst, hd, hsum⟩
  · rw [hd] at hsp ⊢
    simp only at hsp ⊢
    by_contra hcon
    have hq1 : q.length = 1 := by omega
    obtain ⟨c, hc⟩ := List.length_eq_one.mp hq1
    subst hc
    have hbc : b = c := by
      have : c = b := by simpa using hb
      exact this.symm
    subst hbc
    have : decodeRune [b] = (b.toNat, 1) := by
      rw [decodeRune_cons, if_pos hlt]
    rw [this] at hfirst
    simp only at hfirst
    rw [hfirst] at hsp
    exact absurd hsp (by simp)
  · rw [hd] at hsp
    simp only [isSpace_RuneError] at hsp
    exact absurd hsp (by simp)
  · rw [hd] at hsp ⊢
    by_contra hcon
    simp only [List.length_append] at hsum hst
    have hle : start ≤ p.length := by omega
    rcases Nat.lt_or_eq_of_le hle with hlt | heq
    · have hpne : p ≠ [] := by
        intro h
        rw [h] at hlt
        simp at hlt
      rcases hstart with h | ⟨b, t, hqb, hrs⟩
      · exact hpne h
      · obtain ⟨b2, hb2, hrs2⟩ :=
          decodeRune_continuation ((p ++ q).drop start) (p.length - start) (by omega)
            (by omega)
        rw [List.getElem?_drop] at hb2
        have hidx : start + (p.length - start) = p.length := by omega
        rw [hidx, List.getElem?_append_right (le_refl _)] at hb2
        simp only [Nat.sub_self, hqb, List.getElem?_cons_zero, Option.some.injEq] at hb2
        rw [← hb2, hrs] at hrs2
        exact absurd hrs2 (by simp)
    · have : (p ++ q).drop start = q := by
        rw [heq]
        simp
      rw [this, hfirst] at hsp
      exact absurd hsp (by simp)

/-- Trimming trailing white space does not go past a rune that is not a space: on
`p ++ q`, where the first rune of `q` is not a space and (unless `p` is empty) the first
byte of `q` can start a rune, it keeps `p` and a non-empty part of `q`. -/
theorem trimRightAux_keeps :
    ∀ (fuel : Nat) (p q : GoString), q ≠ [] → isSpace (decodeRune q).1 = false →
      (p = [] ∨ ∃ b t, q = b :: t ∧ RuneStart b = true) →
      ∃ k, 1 ≤ k ∧ trimRightAux fuel (p ++ q) = p ++ q.take k := by
  intro fuel
  induction fuel with
  | zero =>
    intro p q hq _ _
    exact ⟨q.length, List.length_pos.mpr hq, by simp [trimRightAux]⟩
  | succ n ih =>
    intro p q hq hfirst hstart
    have hqlen : 0 < q.length := List.length_pos.mpr hq
    rw [trimRightAux_succ n (p ++ q) (by simp [hq])]
    by_cases hsp : isSpace (decodeLastRune (p ++ q)).1 = true
    · rw [if_pos hsp]
      have hw := lastSpace_width_lt p q hq hfirst hstart hsp
      have hcut : (p ++ q).take ((p ++ q).length - (decodeLastRune (p ++ q)).2)
          = p ++ q.take (q.length - (decodeLastRune (p ++ q)).2) := by
        rw [List.take_append_eq_append_take, List.length_append]
        have h1 : p.length + q.length - (decodeLastRune (p ++ q)).2 - p.length
            = q.length - (decodeLastRune (p ++ q)).2 := by omega
        have h2 : List.take (p.length + q.length - (decodeLastRune (p ++ q)).2) p = p := by
          apply List.take_of_length_le
          omega
        rw [h1, h2]
      rw [hcut]
      have hq2 : q.take (q.length - (decodeLastRune (p ++ q)).2) ≠ [] := by
        intro h
        have := congrArg List.length h
        simp only [List.length_take, List.length_nil] at this
        omega
      have hfirst2 : isSpace (decodeRune (q.take (q.length - (decodeLastRune (p ++ q)).2))).1
          = false := by
        rcases decodeRune_take q (q.length - (decodeLastRune (p ++ q)).2) (by omega)
          with h | h
        · rw [h]; exact hfirst
        · rw [h]; exact isSpace_RuneError
      have hstart2 : p = [] ∨ ∃ b t,
          q.take (q.length - (decodeLastRune (p ++ q)).2) = b :: t ∧ RuneStart b = true := by
        rcases hstart with h | ⟨b, t, hqb, hrs⟩
        · left; exact h
        · right
          refine ⟨b, t.take (q.length - (decodeLastRune (p ++ q)).2 - 1), ?_, hrs⟩
          rw [hqb]
          have : (b :: t).length - (decodeLastRune (p ++ b :: t)).2
              = ((b :: t).length - (decodeLastRune (p ++ b :: t)).2 - 1) + 1 := by
            rw [hqb] at hw
            omega
          rw [this, List.take_succ_cons]
          simp
      obtain ⟨k, hk, hres⟩ := ih p _ hq2 hfirst2 hstart2
      refine ⟨min k (q.length - (decodeLastRune (p ++ q)).2), ?_, ?_⟩
      · have : 1 ≤ q.length - (decodeLastRune (p ++ q)).2 := by omega
        exact le_min hk this
      · rw [hres, List.take_take]
    · rw [if_neg hsp]
      exact ⟨q.length, hqlen, by simp⟩

/-- A non-empty string whose first rune is not a space is not emptied by `TrimSpace`. -/
theorem TrimSpace_ne_nil (s : GoString) (hs : s ≠ []) (h : isSpace (decodeRune s).1 = false) :
    TrimSpace s ≠ [] := by
  unfold TrimSpace
  simp only [trimLeftAux_fix _ s (Or.inr h)]
  obtain ⟨k, hk, hres⟩ := trimRightAux_keeps s.length [] s hs h (Or.inl rfl)
  simp only [List.nil_append] at hres
  rw [hres]
  intro hnil
  have := congrArg List.length hnil
  simp only [List.length_take, List.length_nil] at this
  have hlen : 0 < s.length := List.length_pos.mpr hs
  omega

/-! ## Titles -/

theorem deriveTitle_cons (p : PromptMessage) (rest : List PromptMessage) :
    deriveTitle (p :: rest) =
      if TrimSpace p.Text = [] then fallbackTitle
      else if trimmedFirstLine p.Text = [] then fallbackTitle
      else if (trimmedFirstLine p.Text).length > 60 then
        TrimSpace ((trimmedFirstLine p.Text).take 60)
      else trimmedFirstLine p.Text := rfl

theorem deriveTitleReturn_cons (p : PromptMessage) (rest : List PromptMessage) :
    deriveTitleReturn (p :: rest) =
      if TrimSpace p.Text = [] then 2
      else if trimmedFirstLine p.Text = [] then 3
      else if (trimmedFirstLine p.Text).length > 60 then 4
      else 5 := rfl

theorem TrimSpace_nil : TrimSpace [] = [] := rfl

theorem mem_of_mem_TrimSpace (s : GoString) (x : UInt8) (h : x ∈ TrimSpace s) : x ∈ s := by
  unfold TrimSpace at h
  simp only at h
  obtain ⟨k, hk⟩ := trimRightAux_take (trimLeftAux s.length s).length (trimLeftAux s.length s)
  obtain ⟨j, hj⟩ := trimLeftAux_drop s.length s
  rw [hk] at h
  have h1 := List.mem_of_mem_take h
  rw [hj] at h1
  exact List.mem_of_mem_drop h1

theorem firstLineOf_no_LF (s : GoString) : (0x0A : UInt8) ∉ firstLineOf s := by
  intro h
  have := List.mem_takeWhile_imp h
  simp at this

theorem firstLineOf_eq_take (s : GoString) : firstLineOf s = s.take (firstLineOf s).length := by
  have hp : firstLineOf s <+: s := List.takeWhile_prefix _
  exact (List.prefix_iff_eq_take.mp hp)

/-- The first line of a non-empty string whose first rune is not a space is not empty and
starts with a rune that is not a space. -/
theorem firstLineOf_keeps (s : GoString) (hs : s ≠ [])
    (h : isSpace (decodeRune s).1 = false) :
    firstLineOf s ≠ [] ∧ isSpace (decodeRune (firstLineOf s)).1 = false := by
  cases s with
  | nil => exact absurd rfl hs
  | cons b t =>
    have hb : b ≠ 0x0A := by
      intro hb
      rw [hb, decodeRune_cons, if_pos (by decide)] at h
      revert h
      decide
    have hne : firstLineOf (b :: t) ≠ [] := by
      simp [firstLineOf, List.takeWhile_cons, hb]
    refine ⟨hne, ?_⟩
    rw [firstLineOf_eq_take]
    have hlen : 1 ≤ (firstLineOf (b :: t)).length := by
      have := List.length_pos.mpr hne
      omega
    rcases decodeRune_take (b :: t) _ hlen with h1 | h1
    · rw [h1]; exact h
    · rw [h1]; exact isSpace_RuneError

theorem TrimSpace_first_rune (s : GoString) (h : TrimSpace s ≠ []) :
    isSpace (decodeRune (TrimSpace s)).1 = false := by
  rcases TrimSpace_noLeading s with h1 | h1
  · exact absurd h1 h
  · exact h1

/-- The trimmed first line of a text that is not blank is not empty. -/
theorem trimmedFirstLine_ne_nil (text : GoString) (h : TrimSpace text ≠ []) :
    trimmedFirstLine text ≠ [] := by
  have h1 := firstLineOf_keeps (TrimSpace text) h (TrimSpace_first_rune text h)
  exact TrimSpace_ne_nil _ h1.1 h1.2

theorem fallbackTitle_ne_nil : fallbackTitle ≠ [] := by decide

theorem fallbackTitle_no_LF : (0x0A : UInt8) ∉ fallbackTitle := by decide

theorem trimmedFirstLine_no_LF (text : GoString) : (0x0A : UInt8) ∉ trimmedFirstLine text :=
  fun h => firstLineOf_no_LF _ (mem_of_mem_TrimSpace _ _ h)

/-- C11: `deriveTitle` returns the fallback "Untitled Specslides" when the list is empty,
when the text of the first prompt is empty after trimming, and when the first line of
that trimmed text is empty after trimming; otherwise, when that trimmed first line has
at most 60 bytes, the title is that trimmed first line. -/
theorem deriveTitle_short (prompts : List PromptMessage) :
    fallbackTitle = lit "Untitled Specslides"
      ∧ (prompts = [] → deriveTitle prompts = fallbackTitle)
      ∧ (∀ p rest, prompts = p :: rest → TrimSpace p.Text = [] →
          deriveTitle prompts = fallbackTitle)
      ∧ (∀ p rest, prompts = p :: rest → TrimSpace (firstLineOf (TrimSpace p.Text)) = [] →
          deriveTitle prompts = fallbackTitle)
      ∧ (∀ p rest, prompts = p :: rest → TrimSpace p.Text ≠ [] →
          TrimSpace (firstLineOf (TrimSpace p.Text)) ≠ [] →
          (TrimSpace (firstLineOf (TrimSpace p.Text))).length ≤ 60 →
          deriveTitle prompts = TrimSpace (firstLineOf (TrimSpace p.Text))) := by
  refine ⟨rfl, ?_, ?_, ?_, ?_⟩
  · intro h
    rw [h]
    rfl
  · intro p rest h h1
    rw [h, deriveTitle_cons, if_pos h1]
  · intro p rest h h2
    rw [h, deriveTitle_cons]
    have h2b : trimmedFirstLine p.Text = [] := h2
    split_ifs <;> rfl
  · intro p rest h h1 h2 h3
    rw [h, deriveTitle_cons]
    have h2b : trimmedFirstLine p.Text ≠ [] := h2
    have h3b : ¬ (trimmedFirstLine p.Text).length > 60 := by
      have : (trimmedFirstLine p.Text).length ≤ 60 := h3
      omega
    rw [if_neg h1, if_neg h2b, if_neg h3b]
    rfl

/-- C12, as stated, fails. For the text `exTextSpaces` the first line has 71 characters,
yet the title is "a": the first line is trimmed before it is measured. For the text
`exTextAccents` the first line has 61 characters, and the title before and after the
final trim has 60 bytes, which are 30 characters. -/
theorem deriveTitle_truncation_counterexample :
    (firstLineOf exTextSpaces).length = 71
      ∧ runeCount (firstLineOf exTextSpaces) = 71
      ∧ deriveTitle [exPrompt exTextSpaces] = lit "a"
      ∧ runeCount (deriveTitle [exPrompt exTextSpaces]) = 1
      ∧ trimmedFirstLine exTextAccents = exTextAccents
      ∧ runeCount exTextAccents = 61
      ∧ deriveTitle [exPrompt exTextAccents] = exTextAccents.take 60
      ∧ TrimSpace (exTextAccents.take 60) = exTextAccents.take 60
      ∧ runeCount (exTextAccents.take 60) = 30 := by
  decide

/-- C12, amended: when the trimmed first line of the first prompt (the first line of the
trimmed text, trimmed in turn) has more than 60 bytes, the title before its final trim
is the first 60 bytes of that trimmed first line, so its length is 60 bytes and it is a
prefix of that line, and the title returned is that prefix with surrounding white space
trimmed. -/
theorem deriveTitle_truncation (p : PromptMessage) (rest : List PromptMessage)
    (hlong : 60 < (trimmedFirstLine p.Text).length) :
    ((trimmedFirstLine p.Text).take 60).length = 60
      ∧ (trimmedFirstLine p.Text).take 60 <+: trimmedFirstLine p.Text
      ∧ deriveTitle (p :: rest) = TrimSpace ((trimmedFirstLine p.Text).take 60)
      ∧ deriveTitleReturn (p :: rest) = 4 := by
  have hne : trimmedFirstLine p.Text ≠ [] := by
    intro h
    rw [h] at hlong
    simp at hlong
  have h1 : TrimSpace p.Text ≠ [] := by
    intro h
    apply hne
    unfold trimmedFirstLine
    rw [h]
    rfl
  refine ⟨?_, List.take_prefix _ _, ?_, ?_⟩
  · rw [List.length_take]
    omega
  · rw [deriveTitle_cons, if_neg h1, if_neg hne, if_pos hlong]
  · rw [deriveTitleReturn_cons, if_neg h1, if_neg hne, if_pos hlong]

theorem deriveTitle_truncation_witness :
    60 < (trimmedFirstLine (exPrompt exTextLong).Text).length
      ∧ (((trimmedFirstLine (exPrompt exTextLong).Text).take 60).length = 60
        ∧ (trimmedFirstLine (exPrompt exTextLong).Text).take 60
            <+: trimmedFirstLine (exPrompt exTextLong).Text
        ∧ deriveTitle (exPrompt exTextLong :: [])
            = TrimSpace ((trimmedFirstLine (exPrompt exTextLong).Text).take 60)
        ∧ deriveTitleReturn (exPrompt exTextLong :: []) = 4)
      ∧ deriveTitle [exPrompt exTextLong] = List.replicate 59 0x78 :=
  ⟨by decide, deriveTitle_truncation (exPrompt exTextLong) [] (by decide), by decide⟩

/-- C20: the third return of the fallback is not reachable. When the text of the first
prompt is not empty after trimming, the first line of that trimmed text is not empty
after trimming; so `deriveTitle` never ends by its third return, it never returns the
empty string, and its result has no line feed. -/
theorem deriveTitle_third_return_unreachable (prompts : List PromptMessage) :
    (∀ p rest, prompts = p :: rest → TrimSpace p.Text ≠ [] →
        TrimSpace (firstLineOf (TrimSpace p.Text)) ≠ [])
      ∧ deriveTitleReturn prompts ≠ 3
      ∧ deriveTitle prompts ≠ []
      ∧ (0x0A : UInt8) ∉ deriveTitle prompts := by
  refine ⟨fun p rest _ h => trimmedFirstLine_ne_nil p.Text h, ?_, ?_, ?_⟩
  · cases prompts with
    | nil => decide
    | cons p rest =>
      rw [deriveTitleReturn_cons]
      by_cases h1 : TrimSpace p.Text = []
      · rw [if_pos h1]; decide
      · have h2 := trimmedFirstLine_ne_nil p.Text h1
        rw [if_neg h1, if_neg h2]
        split_ifs <;> decide
  · cases prompts with
    | nil => exact fallbackTitle_ne_nil
    | cons p rest =>
      rw [deriveTitle_cons]
      by_cases h1 : TrimSpace p.Text = []
      · rw [if_pos h1]; exact fallbackTitle_ne_nil
      · have h2 := trimmedFirstLine_ne_nil p.Text h1
        rw [if_neg h1, if_neg h2]
        by_cases h3 : (trimmedFirstLine p.Text).length > 60
        · rw [if_pos h3]
          have hfirst : isSpace (decodeRune (trimmedFirstLine p.Text)).1 = false :=
            TrimSpace_first_rune _ h2
          apply TrimSpace_ne_nil
          · intro h
            have := congrArg List.length h
            simp only [List.length_take, List.length_nil] at this
            omega
          · rcases decodeRune_take (trimmedFirstLine p.Text) 60 (by omega) with h | h
            · rw [h]; exact hfirst
            · rw [h]; exact isSpace_RuneError
        · rw [if_neg h3]; exact h2
  · cases prompts with
    | nil => exact fallbackTitle_no_LF
    | cons p rest =>
      rw [deriveTitle_cons]
      split_ifs
      · exact fallbackTitle_no_LF
      · exact fallbackTitle_no_LF
      · intro h
        exact trimmedFirstLine_no_LF p.Text (List.mem_of_mem_take (mem_of_mem_TrimSpace _ _ h))
      · exact trimmedFirstLine_no_LF p.Text

/-- C17: on the prompts produced by the extractor the fallback is never taken. When
`extractUserPrompts` returns a non-empty list, `deriveTitle` ends by its fourth or fifth
return, none of the three conditions of the fallback holds, and the title is the first
line of the text of the first prompt, trimmed, cut to its first 60 bytes and trimmed
again when it has more than 60 bytes. -/
theorem deriveTitle_of_extracted (records : List Record)
    (hne : extractUserPrompts records ≠ []) :
    ∃ p rest, extractUserPrompts records = p :: rest
      ∧ TrimSpace p.Text ≠ []
      ∧ TrimSpace (firstLineOf (TrimSpace p.Text)) ≠ []
      ∧ (deriveTitleReturn (extractUserPrompts records) = 4
          ∨ deriveTitleReturn (extractUserPrompts records) = 5)
      ∧ deriveTitle (extractUserPrompts records) =
          if 60 < (TrimSpace (firstLineOf p.Text)).length then
            TrimSpace ((TrimSpace (firstLineOf p.Text)).take 60)
          else TrimSpace (firstLineOf p.Text) := by
  cases hps : extractUserPrompts records with
  | nil => exact absurd hps hne
  | cons p rest =>
    have hp : p ∈ extractUserPrompts records := by rw [hps]; simp
    have hcont := extractUserPrompts_text records p hp
    have hidem : TrimSpace p.Text = p.Text := hcont.2.2.2
    have h1 : TrimSpace p.Text ≠ [] := by rw [hidem]; exact hcont.1
    have h2 : trimmedFirstLine p.Text ≠ [] := trimmedFirstLine_ne_nil p.Text h1
    have hL : trimmedFirstLine p.Text = TrimSpace (firstLineOf p.Text) := by
      unfold trimmedFirstLine
      rw [hidem]
    refine ⟨p, rest, rfl, h1, h2, ?_, ?_⟩
    · rw [deriveTitleReturn_cons, if_neg h1, if_neg h2]
      split_ifs
      · left; rfl
      · right; rfl
    · rw [deriveTitle_cons, if_neg h1, if_neg h2, hL]

theorem deriveTitle_of_extracted_witness :
    extractUserPrompts exScenario ≠ []
      ∧ (∃ p rest, extractUserPrompts exScenario = p :: rest
          ∧ TrimSpace p.Text ≠ []
          ∧ TrimSpace (firstLineOf (TrimSpace p.Text)) ≠ []
          ∧ (deriveTitleReturn (extractUserPrompts exScenario) = 4
              ∨ deriveTitleReturn (extractUserPrompts exScenario) = 5)
          ∧ deriveTitle (extractUserPrompts exScenario) =
              if 60 < (TrimSpace (firstLineOf p.Text)).length then
                TrimSpace ((TrimSpace (firstLineOf p.Text)).take 60)
              else TrimSpace (firstLineOf p.Text))
      ∧ deriveTitle (extractUserPrompts exScenario) = lit "Hello" :=
  ⟨by decide, deriveTitle_of_extracted exScenario (by decide), by decide⟩

/-! ## Rendering -/

theorem label_plain (x : GoString) :
    lit "_**User" ++ (lit "**_\n\n" ++ x) = lit "_**User**_" ++ (lit "\n\n" ++ x) := by
  rw [← List.append_assoc, ← List.append_assoc]
  congr 1

theorem label_stamped (t x : GoString) :
    lit "_**User" ++ (lit " (" ++ (t ++ (lit ")" ++ (lit "**_\n\n" ++ x))))
      = lit "_**User (" ++ (t ++ (lit ")**_" ++ (lit "\n\n" ++ x))) := by
  have h1 : lit "_**User" ++ lit " (" = lit "_**User (" := by decide
  have h2 : lit ")" ++ lit "**_\n\n" = lit ")**_" ++ lit "\n\n" := by decide
  rw [← List.append_assoc (lit "_**User"), h1, ← List.append_assoc (lit ")"), h2,
    List.append_assoc]

/-- One iteration of the loop of `buildMarkdownFromPrompts`: the separator unless the
prompt is the first, then the block of the prompt. -/
theorem writePrompts_cons (p : PromptMessage) (rest : List PromptMessage) (i : Nat)
    (builder : GoString) :
    writePrompts (p :: rest) i builder
      = writePrompts rest (i + 1)
          (builder ++ ((if i > 0 then separator else []) ++ blockOf p)) := by
  conv_lhs => unfold writePrompts
  by_cases hi : i > 0
  · by_cases ht : p.Timestamp = []
    · simp only [hi, ht, if_true, ne_eq, not_true_eq_false, if_false, blockOf, labelOf,
        separator, List.append_assoc, label_plain]
    · simp only [hi, ht, if_true, ne_eq, not_false_eq_true, if_false, blockOf, labelOf,
        separator, List.append_assoc, label_stamped]
  · by_cases ht : p.Timestamp = []
    · simp only [hi, ht, if_true, ne_eq, not_true_eq_false, if_false, blockOf, labelOf,
        List.append_assoc, label_plain, List.nil_append]
    · simp only [hi, ht, if_true, ne_eq, not_false_eq_true, if_false, blockOf, labelOf,
        List.append_assoc, label_stamped, List.nil_append]

theorem writePrompts_pos : ∀ (prompts : List PromptMessage) (i : Nat) (builder : GoString),
    0 < i →
      writePrompts prompts i builder
        = builder ++ (prompts.map (fun p => separator ++ blockOf p)).flatten := by
  intro prompts
  induction prompts with
  | nil => intro i builder _; simp [writePrompts]
  | cons p rest ih =>
    intro i builder hi
    rw [writePrompts_cons, ih (i + 1) _ (by omega)]
    simp [hi, List.append_assoc]

theorem flatten_intersperse_cons (sep b : GoString) (bs : List GoString) :
    (List.intersperse sep (b :: bs)).flatten = b ++ (bs.map (fun x => sep ++ x)).flatten := by
  induction bs generalizing b with
  | nil => simp
  | cons c cs ih =>
    rw [List.intersperse_cons_cons, List.flatten_cons, List.flatten_cons, ih c]
    simp

/-- The text written by the loop of `buildMarkdownFromPrompts` from index 0: the blocks
of the prompts with the separator between consecutive blocks. -/
theorem writePrompts_zero (prompts : List PromptMessage) (builder : GoString) :
    writePrompts prompts 0 builder = builder ++ (writtenPieces prompts).flatten := by
  cases prompts with
  | nil => simp [writePrompts, writtenPieces]
  | cons p rest =>
    rw [writePrompts_cons, writePrompts_pos rest 1 _ (by omega)]
    unfold writtenPieces
    rw [List.map_cons, flatten_intersperse_cons]
    simp only [List.append_assoc, List.map_map, if_false, Nat.lt_irrefl, gt_iff_lt,
      List.nil_append]
    rfl

theorem buildMarkdownFromPrompts_eq (extract : PromptExtract) :
    buildMarkdownFromPrompts extract
      = TrimSpace (headerOf extract.Prompts ++ (writtenPieces extract.Prompts).flatten) := by
  unfold buildMarkdownFromPrompts
  simp only
  rw [writePrompts_zero]
  unfold headerOf provenanceComment
  have h : lit "<!-- Generated by Specslides -->\n\n"
      = lit "<!-- Generated by Specslides -->" ++ lit "\n\n" := by decide
  rw [h]
  simp only [List.append_assoc]

theorem blockOf_ne_separator (p : PromptMessage) : blockOf p ≠ separator := by
  intro h
  have h1 := congrArg List.head? h
  have hs : separator.head? = some 0x2D := by decide
  have hl1 : lit "_**User**_" = 0x5F :: lit "**User**_" := by decide
  have hl2 : lit "_**User (" = 0x5F :: lit "**User (" := by decide
  unfold blockOf labelOf at h1
  rw [hs] at h1
  by_cases ht : p.Timestamp = []
  · rw [if_pos ht, hl1] at h1
    simp only [List.cons_append, List.head?_cons, Option.some.injEq] at h1
    revert h1
    decide
  · rw [if_neg ht, hl2] at h1
    simp only [List.cons_append, List.head?_cons, Option.some.injEq] at h1
    revert h1
    decide

theorem count_intersperse (sep : GoString) :
    ∀ bs : List GoString, (∀ b ∈ bs, b ≠ sep) →
      (List.intersperse sep bs).count sep = bs.length - 1 := by
  intro bs
  induction bs with
  | nil => intro _; rfl
  | cons b rest ih =>
    intro h
    cases rest with
    | nil =>
      simp only [List.intersperse_single, List.length_singleton, Nat.sub_self]
      rw [List.count_cons, List.count_nil]
      have : b ≠ sep := h b (by simp)
      simp [this]
    | cons c cs =>
      rw [List.intersperse_cons_cons, List.count_cons, List.count_cons]
      have hb : b ≠ sep := h b (by simp)
      have hrest := ih (fun x hx => h x (by simp [hx]))
      rw [hrest]
      simp [hb]

/-- C13, as stated, fails: for the two prompts of `exExtractTwo` the document is not the
trimmed concatenation in which a block is the label, a blank line and the text. The
text of the first prompt is followed by a blank line before the separator. -/
theorem buildMarkdownFromPrompts_counterexample :
    buildMarkdownFromPrompts exExtractTwo ≠ renderClaimed exExtractTwo.Prompts
      ∧ buildMarkdownFromPrompts exExtractTwo
          = lit ("<!-- Generated by Specslides -->\n\n# Hello\n\n"
              ++ "Generated from Codex prompts only.\n\n"
              ++ "_**User**_\n\nHello\n\n---\n\n_**User (2024-01-01T00:00:05Z)**_\n\nBye")
      ∧ renderClaimed exExtractTwo.Prompts
          = lit ("<!-- Generated by Specslides -->\n\n# Hello\n\n"
              ++ "Generated from Codex prompts only.\n\n"
              ++ "_**User**_\n\nHello---\n\n_**User (2024-01-01T00:00:05Z)**_\n\nBye") := by
  decide

/-- C13, amended: the document is the trimmed concatenation of the provenance comment
and a blank line, the heading "# " with the title of the prompts and a blank line, the
line "Generated from Codex prompts only." and a blank line, then one block per prompt
in list order, every block after the first preceded by the separator "---" and a blank
line; a block is the label "_**User**_", written "_**User (timestamp)**_" exactly when
the timestamp is not empty, a blank line, the text unchanged and a blank line. For n
prompts, n at least 1, n - 1 separators are written. -/
theorem buildMarkdownFromPrompts_spec (extract : PromptExtract) :
    buildMarkdownFromPrompts extract
        = TrimSpace
            (lit "<!-- Generated by Specslides -->" ++ lit "\n\n"
              ++ (lit "# " ++ deriveTitle extract.Prompts ++ lit "\n\n")
              ++ lit "Generated from Codex prompts only.\n\n"
              ++ (List.intersperse (lit "---\n\n") (extract.Prompts.map blockOf)).flatten)
      ∧ (∀ p : PromptMessage,
          blockOf p
            = (if p.Timestamp = [] then lit "_**User**_"
                else lit "_**User (" ++ p.Timestamp ++ lit ")**_")
              ++ lit "\n\n" ++ p.Text ++ lit "\n\n")
      ∧ (List.intersperse (lit "---\n\n") (extract.Prompts.map blockOf)).count (lit "---\n\n")
          = extract.Prompts.length - 1 := by
  refine ⟨buildMarkdownFromPrompts_eq extract, fun p => rfl, ?_⟩
  have h := count_intersperse separator (extract.Prompts.map blockOf) (by
    intro b hb
    obtain ⟨p, _, hp⟩ := List.mem_map.mp hb
    rw [← hp]
    exact blockOf_ne_separator p)
  rw [List.length_map] at h
  exact h

theorem header_split (prompts : List PromptMessage) (tail : GoString) :
    headerOf prompts ++ tail
      = lit "<!-- Generated by Specslides --" ++
          (0x3E :: (lit "\n\n" ++ (lit "# " ++ deriveTitle prompts ++ lit "\n\n")
            ++ lit "Generated from Codex prompts only.\n\n" ++ tail)) := by
  unfold headerOf provenanceComment
  have h : lit "<!-- Generated by Specslides -->"
      = lit "<!-- Generated by Specslides --" ++ [0x3E] := by decide
  rw [h]
  simp only [List.append_assoc, List.singleton_append, List.cons_append, List.nil_append]

/-- C14: the document returned by `buildMarkdownFromPrompts` has neither leading nor
trailing white space, trimming it again leaves it unchanged, and it begins with the
provenance comment. -/
theorem buildMarkdownFromPrompts_trimmed (extract : PromptExtract) :
    TrimSpace (buildMarkdownFromPrompts extract) = buildMarkdownFromPrompts extract
      ∧ isSpace (decodeRune (buildMarkdownFromPrompts extract)).1 = false
      ∧ isSpace (decodeLastRune (buildMarkdownFromPrompts extract)).1 = false
      ∧ lit "<!-- Generated by Specslides -->" <+: buildMarkdownFromPrompts extract := by
  have heq := buildMarkdownFromPrompts_eq extract
  have hpre : lit "<!-- Generated by Specslides -->" <+: buildMarkdownFromPrompts extract := by
    rw [heq, header_split]
    generalize (lit "\n\n" ++ (lit "# " ++ deriveTitle extract.Prompts ++ lit "\n\n")
      ++ lit "Generated from Codex prompts only.\n\n"
      ++ (writtenPieces extract.Prompts).flatten) = rest
    have hfirst : isSpace (decodeRune (lit "<!-- Generated by Specslides --"
        ++ (0x3E :: rest))).1 = false := by
      have h : lit "<!-- Generated by Specslides --" = 0x3C :: lit "!-- Generated by Specslides --" := by
        decide
      rw [h, List.cons_append, decodeRune_cons, if_pos (by decide)]
      decide
    have hq : isSpace (decodeRune (0x3E :: rest)).1 = false := by
      rw [decodeRune_cons, if_pos (by decide)]
      decide
    unfold TrimSpace
    simp only [trimLeftAux_fix _ _ (Or.inr hfirst)]
    obtain ⟨k, hk, hres⟩ := trimRightAux_keeps
      (lit "<!-- Generated by Specslides --" ++ (0x3E :: rest)).length
      (lit "<!-- Generated by Specslides --") (0x3E :: rest) (by simp) hq
      (Or.inr ⟨0x3E, rest, rfl, by decide⟩)
    rw [hres]
    obtain ⟨j, hj⟩ : ∃ j, k = j + 1 := ⟨k - 1, by omega⟩
    rw [hj, List.take_succ_cons]
    have h : lit "<!-- Generated by Specslides -->"
        = lit "<!-- Generated by Specslides --" ++ [0x3E] := by decide
    rw [h]
    exact ⟨rest.take j, by simp⟩
  have hne : buildMarkdownFromPrompts extract ≠ [] := by
    intro h
    rw [h] at hpre
    have := List.IsPrefix.length_le hpre
    revert this
    decide
  refine ⟨?_, ?_, ?_, hpre⟩
  · rw [heq]
    exact TrimSpace_idem _
  · have := TrimSpace_noLeading (headerOf extract.Prompts ++ (writtenPieces extract.Prompts).flatten)
    rw [← heq] at this
    rcases this with h | h
    · exact absurd h hne
    · exact h
  · have := TrimSpace_noTrailing (headerOf extract.Prompts ++ (writtenPieces extract.Prompts).flatten)
    rw [← heq] at this
    rcases this with h | h
    · exact absurd h hne
    · exact h

/-- C15: the end-to-end scenario. For the metadata record with id "s1", timestamp
"2024-01-01T00:00:00Z" and cwd "/work" followed by the two user messages "Hello" and
"  ", the metadata are these three values, the prompts are the single prompt "p_1" with
text "Hello", and the document of the extract has one prompt block and no separator. -/
theorem scenario_one_prompt :
    extractSessionMeta exScenario = .ok (lit "s1", lit "2024-01-01T00:00:00Z", lit "/work")
      ∧ extractUserPrompts exScenario
          = [{ ID := lit "p_1", Timestamp := [], Text := lit "Hello" }]
      ∧ (∃ result, buildFromRecords exEnv (lit "/s/a.jsonl") exScenario = .ok result
          ∧ result.Extract.Prompts = extractUserPrompts exScenario
          ∧ result.Markdown
              = lit ("<!-- Generated by Specslides -->\n\n# Hello\n\n"
                  ++ "Generated from Codex prompts only.\n\n_**User**_\n\nHello")
          ∧ occurrences (lit "_**User") result.Markdown = 1
          ∧ occurrences (lit "---") result.Markdown = 0)
      ∧ (writtenPieces (extractUserPrompts exScenario)).length = 1
      ∧ (writtenPieces (extractUserPrompts exScenario)).count separator = 0 := by
  refine ⟨by decide, by decide, ⟨exResult, by decide, by decide, by decide, by decide,
    by decide⟩, by decide, by decide⟩

/-- C19: the document depends on the texts and timestamps of the prompts only. Two
extracts whose prompts have, in order, the same texts and timestamps give the same
document, whatever their prompt identifiers, schema version, source and session; this
is so in particular for two extracts with equal prompt lists. -/
theorem buildMarkdownFromPrompts_depends (e1 e2 : PromptExtract)
    (h : e1.Prompts.map (fun p => (p.Timestamp, p.Text))
          = e2.Prompts.map (fun p => (p.Timestamp, p.Text))) :
    buildMarkdownFromPrompts e1 = buildMarkdownFromPrompts e2 := by
  have hblocks : e1.Prompts.map blockOf = e2.Prompts.map blockOf := by
    have h1 : ∀ ps : List PromptMessage, ps.map blockOf
        = (ps.map (fun p => (p.Timestamp, p.Text))).map
            (fun pr => labelOf pr.1 ++ lit "\n\n" ++ pr.2 ++ lit "\n\n") := by
      intro ps
      rw [List.map_map]
      rfl
    rw [h1, h1, h]
  have htitle : deriveTitle e1.Prompts = deriveTitle e2.Prompts := by
    generalize e1.Prompts = ps1 at h
    generalize e2.Prompts = ps2 at h
    cases ps1 with
    | nil =>
      cases ps2 with
      | nil => rfl
      | cons q qs => simp at h
    | cons p ps =>
      cases ps2 with
      | nil => simp at h
      | cons q qs =>
        simp only [List.map_cons, List.cons.injEq, Prod.mk.injEq] at h
        rw [deriveTitle_cons, deriveTitle_cons, h.1.2]
  rw [buildMarkdownFromPrompts_eq, buildMarkdownFromPrompts_eq]
  unfold headerOf writtenPieces
  rw [hblocks, htitle]

theorem buildMarkdownFromPrompts_depends_witness :
    exExtractTwo.Prompts.map (fun p => (p.Timestamp, p.Text))
        = exExtractTwoOther.Prompts.map (fun p => (p.Timestamp, p.Text))
      ∧ exExtractTwo.Prompts ≠ exExtractTwoOther.Prompts
      ∧ exExtractTwo.Session ≠ exExtractTwoOther.Session
      ∧ buildMarkdownFromPrompts exExtractTwo = buildMarkdownFromPrompts exExtractTwoOther :=
  ⟨by decide, by decide, by decide,
    buildMarkdownFromPrompts_depends exExtractTwo exExtractTwoOther (by decide)⟩

/-! ## Prompt extraction over concatenated streams -/

theorem survivors_append (a b : List Record) :
    survivors (a ++ b) = survivors a ++ survivors b := by
  simp [survivors]

theorem numberFrom_append : ∀ (l1 l2 : List Record) (i : Nat),
    numberFrom i (l1 ++ l2) = numberFrom i l1 ++ numberFrom (i + l1.length) l2 := by
  intro l1
  induction l1 with
  | nil => intro l2 i; simp [numberFrom]
  | cons r t ih =>
    intro l2 i
    have h : i + 1 + t.length = i + (t.length + 1) := by omega
    rw [List.cons_append]
    simp only [numberFrom, List.length_cons, List.cons_append]
    rw [ih l2 (i + 1), h]

theorem renumberFrom_numberFrom : ∀ (l : List Record) (i j : Nat),
    renumberFrom i (numberFrom j l) = numberFrom i l := by
  intro l
  induction l with
  | nil => intro i j; rfl
  | cons r t ih =>
    intro i j
    simp only [numberFrom, renumberFrom, ih]
    rfl

theorem renumberFrom_getElem? : ∀ (ps : List PromptMessage) (i j : Nat),
    (renumberFrom i ps)[j]?
      = ps[j]?.map (fun p => { p with ID := lit "p_" ++ decimal (i + j) }) := by
  intro ps
  induction ps with
  | nil => intro i j; simp [renumberFrom]
  | cons p rest ih =>
    intro i j
    cases j with
    | zero => simp [renumberFrom]
    | succ j =>
      have h : i + 1 + j = i + (j + 1) := by omega
      simp only [renumberFrom, List.getElem?_cons_succ, ih, h]

theorem numberFrom_getElem? : ∀ (l : List Record) (i j : Nat),
    (numberFrom i l)[j]? = l[j]?.map (promptOf (i + j)) := by
  intro l
  induction l with
  | nil => intro i j; simp [numberFrom]
  | cons r t ih =>
    intro i j
    cases j with
    | zero => simp [numberFrom]
    | succ j =>
      have h : i + 1 + j = i + (j + 1) := by omega
      simp only [numberFrom, List.getElem?_cons_succ, ih, h]

/-- C18: `extractUserPrompts` distributes over concatenation up to renumbering. With k
the number of prompts of `a`, the prompts of `a ++ b` are those of `a` followed by those
of `b` with the same text and timestamp, the prompt of `b` at position j (counted from
1), whose identifier is p_j, getting the identifier p_(k+j). A record that does not
qualify or whose message is blank can be inserted or removed without changing the
result. -/
theorem extractUserPrompts_append (a b : List Record) :
    extractUserPrompts (a ++ b)
        = extractUserPrompts a
            ++ renumberFrom ((extractUserPrompts a).length + 1) (extractUserPrompts b)
      ∧ (∀ (j : Nat) (p : PromptMessage), (extractUserPrompts b)[j]? = some p →
          p.ID = lit "p_" ++ decimal (j + 1)
            ∧ (extractUserPrompts (a ++ b))[(extractUserPrompts a).length + j]?
                = some { ID := lit "p_" ++ decimal ((extractUserPrompts a).length + (j + 1))
                         Timestamp := p.Timestamp
                         Text := p.Text })
      ∧ (∀ r : Record, (isUserMessage r = false ∨ isBlank r = true) →
          extractUserPrompts (a ++ r :: b) = extractUserPrompts (a ++ b)) := by
  have hmain : extractUserPrompts (a ++ b)
      = extractUserPrompts a
          ++ renumberFrom ((extractUserPrompts a).length + 1) (extractUserPrompts b) := by
    rw [extractUserPrompts_eq, extractUserPrompts_eq, extractUserPrompts_eq, survivors_append,
      numberFrom_append, renumberFrom_numberFrom, numberFrom_length]
    congr 2
    omega
  refine ⟨hmain, ?_, ?_⟩
  · intro j p hp
    constructor
    · rw [extractUserPrompts_eq, numberFrom_getElem?] at hp
      cases hr : (survivors b)[j]? with
      | none => simp [hr] at hp
      | some r =>
        simp only [hr, Option.map_some', Option.some.injEq] at hp
        rw [← hp]
        simp only [promptOf]
        congr 2
        omega
    · rw [hmain, List.getElem?_append_right (by omega)]
      simp only [Nat.add_sub_cancel_left]
      have h : (extractUserPrompts a).length + 1 + j
          = (extractUserPrompts a).length + (j + 1) := by omega
      rw [renumberFrom_getElem?, hp, h]
      simp only [Option.map_some', Option.some.injEq]
  · intro r hr
    have hs : survivors (a ++ r :: b) = survivors (a ++ b) := by
      have : (isUserMessage r && !isBlank r) = false := by
        rcases hr with h | h
        · simp [h]
        · simp [h]
      simp [survivors, List.filter_cons, this]
    rw [extractUserPrompts_eq, extractUserPrompts_eq, hs]

/-! ## The latest session file -/

theorem candidate_eq_of_modTime : ∀ (files : List Candidate),
    files.Pairwise (fun a b => a.modTime ≠ b.modTime) →
      ∀ a b, a ∈ files → b ∈ files → a.modTime = b.modTime → a = b := by
  intro files
  induction files with
  | nil => intro _ a b ha; simp at ha
  | cons c rest ih =>
    intro hd a b ha hb hab
    rw [List.pairwise_cons] at hd
    rcases List.mem_cons.mp ha with ha1 | ha1
    · rcases List.mem_cons.mp hb with hb1 | hb1
      · rw [ha1, hb1]
      · rw [ha1] at hab
        exact absurd hab (hd.1 b hb1)
    · rcases List.mem_cons.mp hb with hb1 | hb1
      · rw [hb1] at hab
        exact absurd hab.symm (hd.1 a ha1)
      · exact ih hd.2 a b ha1 hb1 hab

/-- Under the contract of `sort.Slice`, `findLatestJSONL` returns the path of a candidate
whose modification time is not before the one of any candidate. -/
theorem findLatestJSONL_head (env : Env) (root : GoString) (files : List Candidate)
    (hsort : SortContract env) (hwalk : walkAll (env.walkDir root) [] = .ok files)
    (hne : files ≠ []) :
    ∃ c ∈ files, findLatestJSONL env root = .ok c.path
      ∧ ∀ d ∈ files, d.modTime ≤ c.modTime := by
  obtain ⟨hperm, hpair⟩ := hsort files
  unfold findLatestJSONL
  rw [hwalk]
  have hlen : ¬ files.length = 0 := by
    intro h
    exact hne (List.length_eq_zero.mp h)
  simp only [hlen, if_false]
  cases hs : env.sortSlice modTimeAfter files with
  | nil =>
    rw [hs] at hperm
    have := hperm.length_eq
    simp only [List.length_nil] at this
    omega
  | cons c rest =>
    rw [hs] at hperm hpair
    rw [List.pairwise_cons] at hpair
    refine ⟨c, hperm.subset (by simp), rfl, ?_⟩
    intro d hd
    have hd2 : d ∈ c :: rest := hperm.symm.subset hd
    rcases List.mem_cons.mp hd2 with h | h
    · rw [h]
    · have := hpair.1 d h
      simp only [modTimeAfter, decide_eq_false_iff_not, not_lt] at this
      exact this

/-- C16: when the scan of the directory gives a non-empty list of candidates with
pairwise distinct modification times, `findLatestJSONL` returns the path of the candidate
with the greatest modification time, and it returns that same path for every other
enumeration order of the candidates (and every sort that meets the contract of
`sort.Slice`). -/
theorem findLatestJSONL_latest (env : Env) (root : GoString) (files : List Candidate)
    (hsort : SortContract env) (hwalk : walkAll (env.walkDir root) [] = .ok files)
    (hne : files ≠ [])
    (hdist : files.Pairwise (fun a b => a.modTime ≠ b.modTime)) :
    ∃ c ∈ files, findLatestJSONL env root = .ok c.path
      ∧ (∀ d ∈ files, d ≠ c → d.modTime < c.modTime)
      ∧ (∀ (env2 : Env) (root2 : GoString) (files2 : List Candidate),
          SortContract env2 → walkAll (env2.walkDir root2) [] = .ok files2 →
          files2.Perm files → findLatestJSONL env2 root2 = .ok c.path) := by
  obtain ⟨c, hc, hres, hmax⟩ := findLatestJSONL_head env root files hsort hwalk hne
  refine ⟨c, hc, hres, ?_, ?_⟩
  · intro d hd hdc
    have hle := hmax d hd
    rcases lt_or_eq_of_le hle with h | h
    · exact h
    · exact absurd (candidate_eq_of_modTime files hdist d c hd hc h) hdc
  · intro env2 root2 files2 hsort2 hwalk2 hperm
    have hne2 : files2 ≠ [] := by
      intro h
      rw [h] at hperm
      exact hne hperm.symm.eq_nil
    obtain ⟨c2, hc2, hres2, hmax2⟩ :=
      findLatestJSONL_head env2 root2 files2 hsort2 hwalk2 hne2
    have hc2f : c2 ∈ files := hperm.subset hc2
    have h1 := hmax c2 hc2f
    have h2 := hmax2 c (hperm.symm.subset hc)
    have heq : c2 = c := candidate_eq_of_modTime files hdist c2 c hc2f hc (le_antisymm h1 h2)
    rw [hres2, heq]

theorem exEnv_sortContract : SortContract exEnv := by
  intro files
  haveI : IsTotal Candidate (fun a b => modTimeAfter b a = false) :=
    ⟨fun a b => by
      simp only [modTimeAfter, decide_eq_false_iff_not, not_lt]
      exact le_total _ _⟩
  haveI : IsTrans Candidate (fun a b => modTimeAfter b a = false) :=
    ⟨fun a b c hab hbc => by
      simp only [modTimeAfter, decide_eq_false_iff_not, not_lt] at hab hbc ⊢
      exact le_trans hbc hab⟩
  exact ⟨List.perm_insertionSort _ files, List.sorted_insertionSort _ files⟩

theorem findLatestJSONL_latest_witness :
    SortContract exEnv
      ∧ walkAll (exEnv.walkDir (lit "/s")) []
          = .ok [{ path := lit "/s/a.jsonl", modTime := 5 },
                 { path := lit "/s/b.jsonl", modTime := 3 }]
      ∧ (∃ c ∈ [({ path := lit "/s/a.jsonl", modTime := 5 } : Candidate),
                { path := lit "/s/b.jsonl", modTime := 3 }],
          findLatestJSONL exEnv (lit "/s") = .ok c.path
            ∧ (∀ d ∈ [({ path := lit "/s/a.jsonl", modTime := 5 } : Candidate),
                      { path := lit "/s/b.jsonl", modTime := 3 }],
                d ≠ c → d.modTime < c.modTime)
            ∧ (∀ (env2 : Env) (root2 : GoString) (files2 : List Candidate),
                SortContract env2 → walkAll (env2.walkDir root2) [] = .ok files2 →
                files2.Perm [{ path := lit "/s/a.jsonl", modTime := 5 },
                             { path := lit "/s/b.jsonl", modTime := 3 }] →
                findLatestJSONL env2 root2 = .ok c.path))
      ∧ findLatestJSONL exEnv (lit "/s") = .ok (lit "/s/a.jsonl")
      ∧ walkAll (exEnvReversed.walkDir (lit "/s")) []
          = .ok [{ path := lit "/s/b.jsonl", modTime := 3 },
                 { path := lit "/s/a.jsonl", modTime := 5 }]
      ∧ findLatestJSONL exEnvReversed (lit "/s") = .ok (lit "/s/a.jsonl") :=
  ⟨exEnv_sortContract, by decide,
    findLatestJSONL_latest exEnv (lit "/s") _ exEnv_sortContract (by decide) (by simp)
      (by decide),
    by decide, by decide, by decide⟩

end Specslides
